import Mathlib

/-!
selectXips: grouping IP addresses by /24 subnet and sampling them

A shallow embedding of `main.go`.

* Go `string` values are Lean `String`s; byte-wise scans of the source run over
  the character list (`String.data`).  All delimiters the program looks for
  (`.`, `:`, `%`, newline, carriage return, digits) are ASCII.
* `net.IP` (a byte slice) is a list of naturals, each byte below 256; a nil
  `net.IP` is `none`.
* Go `int` parameters are `Int`; no arithmetic is performed on them, they are
  only compared with lengths and used as slice bounds.
* A Go `map[string][]string` is an association list with pairwise distinct
  keys, listed in the order in which a `range` loop visits the entries.  Go
  leaves that order unspecified, so statements quantify over all such lists.
* Slices have value semantics: the lists of distinct map keys do not share
  backing storage (this is the case for every map built by `readProxies`).
* The random source is an arbitrary infinite stream of draws; `rand.Seed`
  picks the stream, statements quantify over all of them.
* A run-time panic (slice bounds out of range) is the result `none`.
-/

namespace SelectXips

/-! ## Go standard library: `net.IP`, `net.ParseIP` -/

/-- Go `net.IP`: a slice of bytes. -/
abbrev IP := List Nat

/-- Go `fmt` verb `%d` applied to a non-negative integer. -/
def fmtD (n : Nat) : String := Nat.repr n

/-- Value of `s[i] - '0'` for a decimal digit. -/
def digitVal (c : Char) : Nat := c.toNat - '0'.toNat

/-- Go `c >= '0' && c <= '9'`. -/
def isDigit (c : Char) : Bool := decide ('0'.toNat ≤ c.toNat) && decide (c.toNat ≤ '9'.toNat)

/-- Loop of `netip.parseIPv4`.  `prev` is `s[i-1]` (`none` at `i == 0`),
`fields` holds the octets stored so far (`pos` is its length), `val` and
`digLen` are the loop variables of the same name.  The result is the pair of
the stored octets and the pending `val`, or `none` on a parse error. -/
def parseIPv4Loop : List Char → Option Char → List Nat → Nat → Nat → Option (List Nat × Nat)
  | [], _, fields, val, _ => some (fields, val)
  | c :: rest, prev, fields, val, digLen =>
    if isDigit c then
      if digLen = 1 ∧ val = 0 then none
      else
        if val * 10 + digitVal c > 255 then none
        else parseIPv4Loop rest (some c) fields (val * 10 + digitVal c) (digLen + 1)
    else if c = '.' then
      if prev = none ∨ rest = [] ∨ prev = some '.' then none
      else if fields.length = 3 then none
      else parseIPv4Loop rest (some c) (fields ++ [val]) 0 0
    else none

/-- Go `netip.parseIPv4`: the four octets of a dotted-decimal address. -/
def parseIPv4 (s : List Char) : Option (List Nat) :=
  match parseIPv4Loop s none [] 0 0 with
  | none => none
  | some (fields, val) => if fields.length < 3 then none else some (fields ++ [val])

/-- Value of a hexadecimal digit, `none` for any other character. -/
def hexVal (c : Char) : Option Nat :=
  if '0'.toNat ≤ c.toNat ∧ c.toNat ≤ '9'.toNat then some (c.toNat - '0'.toNat)
  else if 'a'.toNat ≤ c.toNat ∧ c.toNat ≤ 'f'.toNat then some (c.toNat - 'a'.toNat + 10)
  else if 'A'.toNat ≤ c.toNat ∧ c.toNat ≤ 'F'.toNat then some (c.toNat - 'A'.toNat + 10)
  else none

/-- Inner loop of `netip.parseIPv6` reading one group of hex digits: from the
text `s`, the offset `off` and the accumulator `acc` (a `uint32`), the result is
the final offset, the accumulated value and the unread rest, or `none` when
the group has more than four digits or overflows 16 bits. -/
def hexGroup : List Char → Nat → Nat → Option (Nat × Nat × List Char)
  | [], off, acc => some (off, acc, [])
  | c :: rest, off, acc =>
    match hexVal c with
    | none => some (off, acc, c :: rest)
    | some d =>
      if off > 3 then none
      else if (acc * 16 + d) % 2 ^ 32 > 65535 then none
      else hexGroup rest (off + 1) ((acc * 16 + d) % 2 ^ 32)

/-- Main loop of `netip.parseIPv6` (`for i < 16`).  `ip` holds the bytes
written so far, so the loop index `i` is `ip.length`; `ellipsis` is the
position of `::` if one was seen.  The first argument bounds the number of
iterations: every iteration that continues adds two bytes, so eight suffice.
The result is the unread text, the bytes and the ellipsis position. -/
def parseIPv6Loop : Nat → List Char → List Nat → Option Nat →
    Option (List Char × List Nat × Option Nat)
  | 0, s, ip, ellipsis => some (s, ip, ellipsis)
  | fuel + 1, s, ip, ellipsis =>
    if ¬ ip.length < 16 then some (s, ip, ellipsis)
    else
      match hexGroup s 0 0 with
      | none => none
      | some (off, acc, rest) =>
        if off = 0 then none
        else if rest.head? = some '.' then
          if ellipsis = none ∧ ip.length ≠ 12 then none
          else if ip.length + 4 > 16 then none
          else
            match parseIPv4 s with
            | none => none
            | some ip4 => some ([], ip ++ ip4, ellipsis)
        else
          match rest with
          | [] => some ([], ip ++ [acc / 256, acc % 256], ellipsis)
          | c :: rest1 =>
            if c ≠ ':' then none
            else
              match rest1 with
              | [] => none
              | c1 :: rest2 =>
                if c1 = ':' then
                  if ellipsis.isSome then none
                  else if rest2 = [] then
                    some ([], ip ++ [acc / 256, acc % 256], some (ip.length + 2))
                  else
                    parseIPv6Loop fuel rest2 (ip ++ [acc / 256, acc % 256]) (some (ip.length + 2))
                else
                  parseIPv6Loop fuel (c1 :: rest2) (ip ++ [acc / 256, acc % 256]) ellipsis

/-- Go `netip.parseIPv6` on the text before any zone: the 16 bytes of the
address. -/
def parseIPv6Addr (s : List Char) : Option (List Nat) :=
  let lead : Bool := match s with
    | ':' :: ':' :: _ => true
    | _ => false
  let s1 := if lead then s.drop 2 else s
  if lead ∧ s1 = [] then some (List.replicate 16 0)
  else
    match parseIPv6Loop 8 s1 [] (if lead then some 0 else none) with
    | none => none
    | some (rest, ip, ellipsis) =>
      if rest ≠ [] then none
      else if ip.length < 16 then
        match ellipsis with
        | none => none
        | some e => some (ip.take e ++ List.replicate (16 - ip.length) 0 ++ ip.drop e)
      else if ellipsis.isSome then none
      else some ip

/-- Go `netip.parseIPv6`: splits off the zone after the first `%` (an empty
zone is an error) and parses the address before it.  The result is the
address bytes and the zone. -/
def parseIPv6 (s : List Char) : Option (List Nat × List Char) :=
  if '%' ∈ s then
    if (s.dropWhile (fun c => c != '%')).drop 1 = [] then none
    else (parseIPv6Addr (s.takeWhile (fun c => c != '%'))).map
      (fun ip => (ip, (s.dropWhile (fun c => c != '%')).drop 1))
  else (parseIPv6Addr s).map (fun ip => (ip, []))

/-- The 16-byte form of an IPv4 address (`IPv4(a, b, c, d)`, `Addr.As16`). -/
def v4InV6 (ip4 : List Nat) : IP := List.replicate 10 0 ++ [255, 255] ++ ip4

/-- Dispatch of `netip.ParseAddr`: the first `.`, `:` or `%` of the text
decides how all of the text `s` is parsed; the result is the 16-byte form and
the zone. -/
def parseAddrFrom (s : List Char) : List Char → Option (IP × List Char)
  | [] => none
  | c :: rest =>
    if c = '.' then (parseIPv4 s).map (fun ip4 => (v4InV6 ip4, []))
    else if c = ':' then parseIPv6 s
    else if c = '%' then none
    else parseAddrFrom s rest

/-- Go `net.ParseIP`: the 16-byte address of an IPv4 dotted-decimal or IPv6
text, nil (`none`) if the text is neither or carries a zone. -/
def ParseIP (s : String) : Option IP :=
  match parseAddrFrom s.data s.data with
  | none => none
  | some (ip, zone) => if zone ≠ [] then none else some ip

/-- Go `net.IP.To4`: the 4-byte form of an IPv4 address, nil otherwise. -/
def To4 (ip : IP) : Option IP :=
  if ip.length = 4 then some ip
  else if ip.length = 16 ∧ (ip.take 10).all (fun b => b == 0) ∧
      ip.getD 10 0 = 255 ∧ ip.getD 11 0 = 255 then
    some ((ip.drop 12).take 4)
  else none

/-! ## The program -/

/-- Source: `getSubnet` extracts the /24 subnet from an IP address. -/
def getSubnet (ip : IP) : String :=
  match To4 ip with
  | none => ""
  | some ip4 =>
    fmtD (ip4.getD 0 0) ++ "." ++ fmtD (ip4.getD 1 0) ++ "." ++ fmtD (ip4.getD 2 0) ++ ".0/24"

/-! ### Maps -/

/-- Go `map[string][]string`: the entries, with pairwise distinct keys, in the
order in which a `range` loop visits them. -/
abbrev ProxyMap := List (String × List String)

/-- Keys of a map, in iteration order. -/
def keys (m : ProxyMap) : List String := m.map Prod.fst

/-- Go `m[k]` as an expression: the list stored at `k`, nil (`[]`) if `k` is
not a key. -/
def lookup : ProxyMap → String → List String
  | [], _ => []
  | (k1, v) :: rest, k => if k1 = k then v else lookup rest k

/-- Go `m[k] = v`: replaces the list stored at `k`, or adds the key. -/
def assign : ProxyMap → String → List String → ProxyMap
  | [], k, v => [(k, v)]
  | (k1, v1) :: rest, k, v => if k1 = k then (k, v) :: rest else (k1, v1) :: assign rest k v

/-- Well-formed map: no key occurs twice. -/
def WF (m : ProxyMap) : Prop := (keys m).Nodup

instance (m : ProxyMap) : Decidable (WF m) := by unfold WF; infer_instance

/-- All strings stored in the map, in iteration order (what the flattening
loop of `selectRandomProxies` collects). -/
def allProxies (m : ProxyMap) : List String := (m.map Prod.snd).flatten

/-! ### Errors, files and the line scanner -/

/-- Go `error` values the program can see: an error of the operating system or
of the scanner (`io`), or one made by `fmt.Errorf` (`errorf`), each with its
message. -/
inductive Error where
  | io (msg : String)
  | errorf (msg : String)
  deriving DecidableEq, Repr

deriving instance DecidableEq for Except

/-- The error `fmt.Errorf("invalid IP address: %s", proxy)`. -/
def invalidIP (proxy : String) : Error := Error.errorf ("invalid IP address: " ++ proxy)

/-- Go `bufio.ErrTooLong`. -/
def ErrTooLong : Error := Error.io "bufio.Scanner: token too long"

/-- File system as the program sees it: `openFile name` is the outcome of
`os.Open` (the content of the file, or the error), `createErr name` the error
of `os.Create`, if it fails.  Reads of an opened file and writes to a created
file are taken to succeed. -/
structure FS where
  openFile : String → Except Error String
  createErr : String → Option Error

/-- File system after `os.Create name` succeeded and `content` was written. -/
def FS.write (fs : FS) (name content : String) : FS :=
  { fs with openFile := fun n => if n = name then Except.ok content else fs.openFile n }

/-- Go `bufio.dropCR`: drops one trailing carriage return. -/
def dropCR (data : List Char) : List Char :=
  if data.getLast? = some '\r' then data.dropLast else data

/-- The raw lines `bufio.ScanLines` cuts the data into: maximal runs without a
newline, each ended by a newline except possibly the last; no line is
produced for an empty remainder at the end of the data.  `acc` is the current
line read so far, reversed. -/
def rawLines : List Char → List Char → List (List Char)
  | [], [] => []
  | [], c :: acc => [(c :: acc).reverse]
  | c :: rest, acc => if c = '\n' then acc.reverse :: rawLines rest [] else rawLines rest (c :: acc)

/-- Go `bufio.MaxScanTokenSize`. -/
def MaxScanTokenSize : Nat := 65536

/-- Outcome of the loop `for scanner.Scan()`: the successive values of
`scanner.Text()` and the final `scanner.Err()`. -/
structure Scanned where
  lines : List String
  err : Option Error

/-- Go `bufio.Scanner` with the default split function and buffer: raw lines
are returned with a trailing carriage return dropped; a raw line of
`MaxScanTokenSize` bytes or more stops the scan with `ErrTooLong`. -/
def scanTokens : List (List Char) → Scanned
  | [] => ⟨[], none⟩
  | l :: rest =>
    if (String.mk l).utf8ByteSize ≥ MaxScanTokenSize then ⟨[], some ErrTooLong⟩
    else ⟨String.mk (dropCR l) :: (scanTokens rest).lines, (scanTokens rest).err⟩

/-- The scan of a whole file content. -/
def scanLines (content : String) : Scanned := scanTokens (rawLines content.data [])

/-! ### `readProxies` -/

/-- Source: the loop `for scanner.Scan()` of `readProxies`, over the lines the
scanner yields, updating the map `proxies`. -/
def readProxiesLoop : List String → ProxyMap → Except Error ProxyMap
  | [], proxies => Except.ok proxies
  | proxy :: rest, proxies =>
    if proxy = "" then readProxiesLoop rest proxies
    else
      match ParseIP proxy with
      | none => Except.error (invalidIP proxy)
      | some ip =>
        readProxiesLoop rest
          (assign proxies (getSubnet ip) (lookup proxies (getSubnet ip) ++ [proxy]))

/-- Source: `readProxies` reads proxies from a file and categorizes them by /24
subnet.  The result is Go's pair of the map (nil is `none`) and the error. -/
def readProxies (fs : FS) (filename : String) : Option ProxyMap × Option Error :=
  match fs.openFile filename with
  | Except.error err => (none, some err)
  | Except.ok content =>
    match readProxiesLoop (scanLines content).lines [] with
    | Except.error err => (none, some err)
    | Except.ok proxies =>
      match (scanLines content).err with
      | some err => (none, some err)
      | none => (some proxies, none)

/-! ### Random source and `rand.Shuffle` -/

/-- Random source: the infinite stream of raw draws still to come. -/
abbrev Rand := Nat → Nat

/-- Go `r.int31n(n)` (and `r.Int63n(n)`): a number in `[0, n)` taken from the
next draw, and the source after the draw. -/
def int31n (r : Rand) (n : Nat) : Nat × Rand := (r 0 % n, fun k => r (k + 1))

/-- The swap closure passed to `rand.Shuffle`:
`xs[i], xs[j] = xs[j], xs[i]`. -/
def swap (xs : List String) (i j : Nat) : List String :=
  (xs.set i (xs.getD j "")).set j (xs.getD i "")

/-- Loop of Go `rand.Shuffle`: `for ; i > 0; i-- { j := int31n(i+1); swap(i, j) }`,
started at the loop index `i`. -/
def shuffleLoop : Nat → Rand → List String → List String × Rand
  | 0, r, xs => (xs, r)
  | i + 1, r, xs => shuffleLoop i (int31n r (i + 2)).2 (swap xs (i + 1) (int31n r (i + 2)).1)

/-- Go `rand.Shuffle(len(xs), swap)` on the slice `xs` (Fisher-Yates): the
shuffled slice and the source after the draws. -/
def Shuffle (r : Rand) (xs : List String) : List String × Rand :=
  shuffleLoop (xs.length - 1) r xs

/-! ### `selectRandomProxies` -/

/-- Go slice expression `xs[:n]`: panics (`none`) if `n` is negative or
exceeds the length.  (Go bounds `n` by the capacity; at both uses in the
source `n` is below the length, tested just before.) -/
def sliceTo (xs : List String) (n : Int) : Option (List String) :=
  if 0 ≤ n ∧ n ≤ (xs.length : Int) then some (xs.take n.toNat) else none

/-- Source: the loop grouping the selected proxies by subnet (total mode);
a proxy that does not parse is skipped. -/
def groupBySubnet : List String → ProxyMap → ProxyMap
  | [], subnetMap => subnetMap
  | proxy :: rest, subnetMap =>
    match ParseIP proxy with
    | some ip =>
      groupBySubnet rest
        (assign subnetMap (getSubnet ip) (lookup subnetMap (getSubnet ip) ++ [proxy]))
    | none => groupBySubnet rest subnetMap

/-- Source: the loop over the subnets in per-subnet mode, over the entries
still to visit, threading the random source and the map `selected`. -/
def perSubnetLoop (ipsPerSubnet : Int) : List (String × List String) → Rand → ProxyMap →
    Option ProxyMap
  | [], _, selected => some selected
  | (subnet, proxies) :: rest, r, selected =>
    if (proxies.length : Int) > ipsPerSubnet then
      match sliceTo (Shuffle r proxies).1 ipsPerSubnet with
      | none => none
      | some chosen =>
        perSubnetLoop ipsPerSubnet rest (Shuffle r proxies).2 (assign selected subnet chosen)
    else perSubnetLoop ipsPerSubnet rest r (assign selected subnet proxies)

/-- Source: `selectRandomProxies` selects proxies based on IPsPerSubnet or
IPsTotal.  `r` is the random source after `rand.Seed`; the result is `none`
when the code panics. -/
def selectRandomProxies (r : Rand) (subnetProxies : ProxyMap) (ipsPerSubnet : Int)
    (ipsTotal : Int) : Option ProxyMap :=
  if ipsTotal > 0 then
    if ((allProxies subnetProxies).length : Int) > ipsTotal then
      match sliceTo (Shuffle r (allProxies subnetProxies)).1 ipsTotal with
      | none => none
      | some selectedProxies => some (groupBySubnet selectedProxies [])
    else some []
  else perSubnetLoop ipsPerSubnet subnetProxies r []

/-! ### `writeResults` -/

/-- Scan behind `strings.LastIndex(s, ".")`: `i` is the current position and
`last` the position of the last dot seen so far. -/
def lastIndexFrom : List Char → Nat → Int → Int
  | [], _, last => last
  | c :: rest, i, last => lastIndexFrom rest (i + 1) (if c = '.' then (i : Int) else last)

/-- Go `strings.LastIndex(s, ".")`: position of the last dot, `-1` if there is
none.  Positions count characters; up to the last dot that is the same prefix
as counting bytes. -/
def LastIndex (s : String) : Int := lastIndexFrom s.data 0 (-1)

/-- Go string slice `s[:n]`: panics (`none`) if `n` is out of range. -/
def strSliceTo (s : String) (n : Int) : Option String :=
  if 0 ≤ n ∧ n ≤ (s.data.length : Int) then some (String.mk (s.data.take n.toNat)) else none

/-- What the body of the `range` loop of `writeResults` writes for one entry:
the header line, the proxies one per line, and an empty line. -/
def writeSection (subnet : String) (proxies : List String) : Option String :=
  match strSliceTo subnet (LastIndex subnet + 1) with
  | none => none
  | some subnetPrefix =>
    some (subnetPrefix ++ " subnet, " ++ fmtD proxies.length ++ " IPs:\n" ++
      String.join (proxies.map (fun proxy => proxy ++ "\n")) ++ "\n")

/-- Everything the `range` loop of `writeResults` writes to the buffered
writer, for the entries in iteration order; `none` if a slice panics. -/
def report : ProxyMap → Option String
  | [] => some ""
  | (subnet, proxies) :: rest =>
    match writeSection subnet proxies with
    | none => none
    | some text =>
      match report rest with
      | none => none
      | some more => some (text ++ more)

/-- Source: `writeResults` writes the selected proxies to a file in the
specified format.  The result is the file system afterwards and the returned
error, or `none` if the code panics. -/
def writeResults (fs : FS) (filename : String) (selectedProxies : ProxyMap) :
    Option (FS × Option Error) :=
  match fs.createErr filename with
  | some err => some (fs, some err)
  | none =>
    match report selectedProxies with
    | none => none
    | some text => some (fs.write filename text, none)

/-- Source: `clearResultsFile` clears the results file at the start. -/
def clearResultsFile (fs : FS) (filename : String) : FS × Option Error :=
  match fs.createErr filename with
  | some err => (fs, some err)
  | none => (fs.write filename "", none)

/-! ### `main` -/

/-- Source: `IPsPerSubnet`, the number of proxies to select from each subnet if
IPsTotal is 0. -/
def IPsPerSubnet : Int := 2

/-- Source: `IPsTotal`, the total number of proxies to select across all
subnets, set to 0 to use IPsPerSubnet. -/
def IPsTotal : Int := 100

/-- Go `err.Error()`, what the verb `%v` prints for an error. -/
def Error.message : Error → String
  | Error.io msg => msg
  | Error.errorf msg => msg

/-- Outcome of a run of `main`: the file system at the end, what was printed
to standard output, and whether the run ended in a panic. -/
structure Run where
  fs : FS
  stdout : List String
  panicked : Bool

/-- Source: `main`, with the two configuration variables as parameters.
`order1` and `order2` give the order in which the `range` loops of
`selectRandomProxies` and of `writeResults` visit their map (statements take
them to rearrange the entries). -/
def mainWith (ipsPerSubnet ipsTotal : Int) (r : Rand) (order1 order2 : ProxyMap → ProxyMap)
    (fs : FS) : Run :=
  match clearResultsFile fs "results.txt" with
  | (fs1, some err) => ⟨fs1, ["Error clearing results file: " ++ err.message ++ "\n"], false⟩
  | (fs1, none) =>
    match readProxies fs1 "proxies.txt" with
    | (_, some err) => ⟨fs1, ["Error reading proxies: " ++ err.message ++ "\n"], false⟩
    | (proxies, none) =>
      match selectRandomProxies r (order1 (proxies.getD [])) ipsPerSubnet ipsTotal with
      | none => ⟨fs1, [], true⟩
      | some selectedProxies =>
        match writeResults fs1 "results.txt" (order2 selectedProxies) with
        | none => ⟨fs1, [], true⟩
        | some (fs2, some err) => ⟨fs2, ["Error writing results: " ++ err.message ++ "\n"], false⟩
        | some (fs2, none) => ⟨fs2, ["Results written to results.txt\n"], false⟩

/-- Source: `main`, run with the shipped values of `IPsPerSubnet` and
`IPsTotal`. -/
def main (r : Rand) (order1 order2 : ProxyMap → ProxyMap) (fs : FS) : Run :=
  mainWith IPsPerSubnet IPsTotal r order1 order2 fs

/-! ## Vocabulary of the statements -/

/-- Subnet key under which a proxy string is filed: the key of its parsed
address, if it parses. -/
def subnetOf (proxy : String) : Option String := (ParseIP proxy).map getSubnet

/-- Every proxy stored in the map sits under the key computed from it. -/
def Keyed (m : ProxyMap) : Prop := ∀ e ∈ m, ∀ s ∈ e.2, subnetOf s = some e.1

/-- Subnet key as the specification writes it: the decimal renderings of the
first three octets separated by dots, then `.0/24`. -/
def subnetKey (a b c : Nat) : String := fmtD a ++ "." ++ fmtD b ++ "." ++ fmtD c ++ ".0/24"

/-- Report section as the specification writes it, for the subnet
`a.b.c.0/24`: the header line `a.b.c. subnet, <n> IPs:`, each address on a
line of its own, and one empty line. -/
def specSection (a b c : Nat) (proxies : List String) : String :=
  fmtD a ++ "." ++ fmtD b ++ "." ++ fmtD c ++ "." ++ " subnet, " ++ fmtD proxies.length ++
    " IPs:\n" ++ String.join (proxies.map (fun proxy => proxy ++ "\n")) ++ "\n"

/-- The lines of a file content: the raw lines, each without its trailing
carriage return. -/
def fileLines (content : String) : List String :=
  (rawLines content.data []).map (fun l => String.mk (dropCR l))

/-- Value of a decimal numeral: its digits read from the left. -/
def decimalValue (s : String) : Nat :=
  s.data.foldl (fun acc c => acc * 10 + digitVal c) 0

/-- The text `s` is the decimal rendering of `n` without leading zeros: a
non-empty run of decimal digits whose value is `n` and which starts with `0`
only if it is the text `0`. -/
def IsDecimalOf (s : String) (n : Nat) : Prop :=
  s.data ≠ [] ∧ (∀ c ∈ s.data, isDigit c = true) ∧ decimalValue s = n ∧
    (s.data.head? = some '0' → s = "0")

/-- The header prefix `writeResults` computes for a key (empty if the slice
were to panic). -/
def headerPrefix (subnet : String) : String :=
  (strSliceTo subnet (LastIndex subnet + 1)).getD ""

/-- The section of the report for one entry of the selection: the header line
with the number of addresses, the addresses one per line, an empty line. -/
def sectionOf (e : String × List String) : String :=
  headerPrefix e.1 ++ " subnet, " ++ fmtD e.2.length ++ " IPs:\n" ++
    String.join (e.2.map (fun proxy => proxy ++ "\n")) ++ "\n"

/-- A sample input of 101 addresses, `10.0.0.0` to `10.0.0.100`, one per
line. -/
def sampleInput101 : String :=
  String.join ((List.range 101).map (fun i => "10.0.0." ++ fmtD i ++ "\n"))

/-! ## Lemmas on maps -/

theorem lookup_assign (m : ProxyMap) (k : String) (v : List String) (k1 : String) :
    lookup (assign m k v) k1 = if k = k1 then v else lookup m k1 := by
  induction m with
  | nil => simp [assign, lookup]
  | cons e rest ih =>
    obtain ⟨k0, v0⟩ := e
    by_cases h0 : k0 = k
    · subst h0
      by_cases h1 : k0 = k1
      · simp [assign, lookup, h1]
      · simp [assign, lookup, h1]
    · by_cases h1 : k0 = k1
      · subst h1
        simp [assign, lookup, h0, Ne.symm h0]
      · simp [assign, lookup, h0, h1, ih]

theorem lookup_assign_self (m : ProxyMap) (k : String) (v : List String) :
    lookup (assign m k v) k = v := by
  simp [lookup_assign]

theorem lookup_assign_ne (m : ProxyMap) (k : String) (v : List String) (k1 : String)
    (h : k ≠ k1) : lookup (assign m k v) k1 = lookup m k1 := by
  simp [lookup_assign, h]

theorem mem_keys_assign (m : ProxyMap) (k : String) (v : List String) (k1 : String) :
    k1 ∈ keys (assign m k v) ↔ k1 = k ∨ k1 ∈ keys m := by
  induction m with
  | nil => simp [assign, keys]
  | cons e rest ih =>
    obtain ⟨k0, v0⟩ := e
    by_cases h0 : k0 = k
    · subst h0
      simp [assign, keys]
    · have ih1 : k1 ∈ List.map Prod.fst (assign rest k v) ↔ k1 = k ∨ k1 ∈ List.map Prod.fst rest :=
        ih
      simp only [assign, h0, if_false, keys, List.map_cons, List.mem_cons, ih1]
      tauto

theorem wf_assign (m : ProxyMap) (k : String) (v : List String) (h : WF m) :
    WF (assign m k v) := by
  induction m with
  | nil => simp [assign, WF, keys]
  | cons e rest ih =>
    obtain ⟨k0, v0⟩ := e
    have hw : k0 ∉ keys rest ∧ WF rest := by
      simpa [WF, keys] using h
    by_cases h0 : k0 = k
    · subst h0
      simpa [assign, WF, keys] using h
    · have h2 : k0 ∉ keys (assign rest k v) := by
        rw [mem_keys_assign]
        intro hc
        rcases hc with hc | hc
        · exact h0 hc
        · exact hw.1 hc
      have h3 : WF (assign rest k v) := ih hw.2
      simp only [assign, h0, if_false]
      exact List.nodup_cons.mpr ⟨h2, h3⟩

theorem mem_assign (m : ProxyMap) (k : String) (v : List String) (e : String × List String)
    (h : e ∈ assign m k v) : e = (k, v) ∨ e ∈ m := by
  induction m with
  | nil => simpa [assign] using h
  | cons e0 rest ih =>
    obtain ⟨k0, v0⟩ := e0
    by_cases h0 : k0 = k
    · simp only [assign, h0, if_true, List.mem_cons] at h
      rcases h with h | h
      · exact Or.inl h
      · exact Or.inr (List.mem_cons_of_mem _ h)
    · simp only [assign, h0, if_false, List.mem_cons] at h
      rcases h with h | h
      · exact Or.inr (h ▸ List.mem_cons_self _ _)
      · rcases ih h with h1 | h1
        · exact Or.inl h1
        · exact Or.inr (List.mem_cons_of_mem _ h1)

theorem lookup_of_not_mem_keys (m : ProxyMap) (k : String) (h : k ∉ keys m) :
    lookup m k = [] := by
  induction m with
  | nil => rfl
  | cons e rest ih =>
    obtain ⟨k0, v0⟩ := e
    have h1 : ¬ k = k0 ∧ k ∉ keys rest := by
      simpa [keys] using h
    have h2 : ¬ k0 = k := fun hc => h1.1 hc.symm
    simp [lookup, h2, ih h1.2]

theorem lookup_of_mem (m : ProxyMap) (hm : WF m) (k : String) (v : List String)
    (h : (k, v) ∈ m) : lookup m k = v := by
  induction m with
  | nil => simp at h
  | cons e rest ih =>
    obtain ⟨k0, v0⟩ := e
    have hw : k0 ∉ keys rest ∧ WF rest := by
      simpa [WF, keys] using hm
    rcases List.mem_cons.mp h with h1 | h1
    · have hk : k = k0 := congrArg Prod.fst h1
      have hv : v = v0 := congrArg Prod.snd h1
      simp [lookup, hk, hv]
    · have hk : k ∈ keys rest := List.mem_map.mpr ⟨(k, v), h1, rfl⟩
      have hne : ¬ k0 = k := fun hc => hw.1 (hc ▸ hk)
      simp [lookup, hne, ih hw.2 h1]

theorem mem_of_mem_keys (m : ProxyMap) (k : String) (h : k ∈ keys m) :
    (k, lookup m k) ∈ m := by
  induction m with
  | nil => simp [keys] at h
  | cons e rest ih =>
    obtain ⟨k0, v0⟩ := e
    by_cases h0 : k0 = k
    · subst h0
      simp [lookup]
    · have h1 : k ∈ keys rest := by
        have h2 : k = k0 ∨ k ∈ keys rest := by
          simpa [keys] using h
        rcases h2 with h2 | h2
        · exact absurd h2.symm h0
        · exact h2
      simp only [lookup, h0, if_false]
      exact List.mem_cons_of_mem _ (ih h1)

theorem lookup_perm (m1 m2 : ProxyMap) (hp : m1.Perm m2) (hw : WF m1) (k : String) :
    lookup m1 k = lookup m2 k := by
  have hw2 : WF m2 := (List.Perm.nodup_iff (hp.map Prod.fst)).mp hw
  by_cases hk : k ∈ keys m1
  · have h1 := mem_of_mem_keys m1 k hk
    exact (lookup_of_mem m2 hw2 k _ (hp.subset h1)).symm
  · have hk2 : k ∉ keys m2 := fun hc => hk ((hp.map Prod.fst).symm.subset hc)
    rw [lookup_of_not_mem_keys m1 k hk, lookup_of_not_mem_keys m2 k hk2]

theorem allProxies_assign_append (m : ProxyMap) (k s : String) :
    (allProxies (assign m k (lookup m k ++ [s]))).Perm (allProxies m ++ [s]) := by
  induction m with
  | nil => simp [assign, lookup, allProxies]
  | cons e rest ih =>
    obtain ⟨k0, v0⟩ := e
    by_cases h0 : k0 = k
    · subst h0
      simp only [assign, lookup, if_true, allProxies, List.map_cons, List.flatten_cons,
        List.append_assoc]
      exact List.Perm.append_left _ List.perm_append_comm
    · simp only [assign, lookup, h0, if_false, allProxies, List.map_cons, List.flatten_cons,
        List.append_assoc]
      exact List.Perm.append_left _ ih

/-! ## Lemmas on the shuffle -/

theorem count_set_add (l : List String) (i : Nat) (a b : String) (h : i < l.length) :
    (l.set i b).count a + (if l.getD i "" = a then 1 else 0) =
      l.count a + (if b = a then 1 else 0) := by
  induction l generalizing i with
  | nil => simp at h
  | cons x xs ih =>
    cases i with
    | zero =>
      simp only [List.set_cons_zero, List.count_cons, List.getD_cons_zero, beq_iff_eq]
      omega
    | succ i =>
      have hi : i < xs.length := by simpa using h
      have := ih i hi
      simp only [List.set_cons_succ, List.count_cons, List.getD_cons_succ, beq_iff_eq]
      omega

theorem getD_set_self (l : List String) (i : Nat) (b : String) (h : i < l.length) :
    (l.set i b).getD i "" = b := by
  induction l generalizing i with
  | nil => simp at h
  | cons x xs ih =>
    cases i with
    | zero => simp
    | succ i =>
      have hi : i < xs.length := by simpa using h
      simpa using ih i hi

theorem getD_set_ne (l : List String) (i j : Nat) (b : String) (h : i ≠ j) :
    (l.set i b).getD j "" = l.getD j "" := by
  induction l generalizing i j with
  | nil => simp
  | cons x xs ih =>
    cases i with
    | zero =>
      cases j with
      | zero => exact absurd rfl h
      | succ j => simp
    | succ i =>
      cases j with
      | zero => simp
      | succ j =>
        have hij : i ≠ j := fun hc => h (by rw [hc])
        simpa using ih i j hij

theorem swap_length (xs : List String) (i j : Nat) : (swap xs i j).length = xs.length := by
  simp [swap]

theorem swap_perm (xs : List String) (i j : Nat) (hi : i < xs.length) (hj : j < xs.length) :
    (swap xs i j).Perm xs := by
  rw [List.perm_iff_count]
  intro a
  have h1 := count_set_add xs i a (xs.getD j "") hi
  have hj1 : j < (xs.set i (xs.getD j "")).length := by simpa using hj
  have h2 := count_set_add (xs.set i (xs.getD j "")) j a (xs.getD i "") hj1
  have h3 : (xs.set i (xs.getD j "")).getD j "" = xs.getD j "" := by
    by_cases hij : i = j
    · subst hij
      exact getD_set_self xs i _ hi
    · exact getD_set_ne xs i j _ hij
  rw [h3] at h2
  unfold swap
  omega

theorem shuffleLoop_perm (i : Nat) (r : Rand) (xs : List String) (h : i < xs.length) :
    (shuffleLoop i r xs).1.Perm xs := by
  induction i generalizing r xs with
  | zero => simp [shuffleLoop]
  | succ i ih =>
    have hj : (int31n r (i + 2)).1 < xs.length := by
      have : r 0 % (i + 2) < i + 2 := Nat.mod_lt _ (by omega)
      simp only [int31n]
      omega
    have hp := swap_perm xs (i + 1) (int31n r (i + 2)).1 h hj
    have hl : i < (swap xs (i + 1) (int31n r (i + 2)).1).length := by
      rw [swap_length]
      omega
    simp only [shuffleLoop]
    exact (ih _ _ hl).trans hp

theorem Shuffle_perm (r : Rand) (xs : List String) : (Shuffle r xs).1.Perm xs := by
  unfold Shuffle
  cases xs with
  | nil => simp [shuffleLoop]
  | cons x rest => exact shuffleLoop_perm _ r _ (by simp)

theorem Shuffle_length (r : Rand) (xs : List String) : (Shuffle r xs).1.length = xs.length :=
  (Shuffle_perm r xs).length_eq

/-! ## Per-subnet mode -/

theorem perSubnetLoop_spec (n : Int) (hn : 0 ≤ n) (es : List (String × List String)) :
    ∀ (r : Rand) (sel : ProxyMap), (keys es).Nodup →
      ∃ res, perSubnetLoop n es r sel = some res ∧
        (∀ k, k ∉ keys es → lookup res k = lookup sel k) ∧
        (∀ k, k ∈ keys res ↔ k ∈ keys sel ∨ k ∈ keys es) ∧
        (WF sel → WF res) ∧
        (∀ k v, (k, v) ∈ es → (lookup res k).length = min v.length n.toNat ∧
          (lookup res k).Subperm v ∧ ((v.length : Int) ≤ n → lookup res k = v)) := by
  induction es with
  | nil =>
    intro r sel _
    exact ⟨sel, rfl, fun _ _ => rfl, by simp [keys], id, by simp⟩
  | cons e rest ih =>
    obtain ⟨k0, v0⟩ := e
    intro r sel hnd
    have hnd1 : k0 ∉ keys rest ∧ (keys rest).Nodup := by
      simpa [keys] using hnd
    -- the list stored for the first subnet and the source afterwards
    obtain ⟨chosen, r1, hstep, hlen, hsub, hsame⟩ :
        ∃ (chosen : List String) (r1 : Rand),
          perSubnetLoop n ((k0, v0) :: rest) r sel =
            perSubnetLoop n rest r1 (assign sel k0 chosen) ∧
          chosen.length = min v0.length n.toNat ∧ chosen.Subperm v0 ∧
          ((v0.length : Int) ≤ n → chosen = v0) := by
      by_cases h : (v0.length : Int) > n
      · have hl : n ≤ ((Shuffle r v0).1.length : Int) := by
          rw [Shuffle_length]
          omega
        refine ⟨(Shuffle r v0).1.take n.toNat, (Shuffle r v0).2, ?_, ?_, ?_, ?_⟩
        · simp [perSubnetLoop, h, sliceTo, hn, hl]
        · rw [List.length_take, Shuffle_length]
          exact Nat.min_comm _ _
        · exact (List.take_sublist _ _).subperm.trans (Shuffle_perm r v0).subperm
        · intro hc
          omega
      · refine ⟨v0, r, ?_, ?_, List.Subperm.refl _, fun _ => rfl⟩
        · simp [perSubnetLoop, h]
        · omega
    obtain ⟨res, hres, h1, h2, h3, h4⟩ := ih r1 (assign sel k0 chosen) hnd1.2
    have hk0 : lookup res k0 = chosen := by
      rw [h1 k0 hnd1.1, lookup_assign_self]
    refine ⟨res, hstep.trans hres, ?_, ?_, ?_, ?_⟩
    · intro k hk
      have hk1 : ¬ k = k0 ∧ k ∉ keys rest := by
        simpa [keys] using hk
      rw [h1 k hk1.2, lookup_assign_ne _ _ _ _ (fun hc => hk1.1 hc.symm)]
    · intro k
      rw [h2 k, mem_keys_assign]
      simp only [keys, List.map_cons, List.mem_cons]
      tauto
    · intro hw
      exact h3 (wf_assign _ _ _ hw)
    · intro k v hkv
      rcases List.mem_cons.mp hkv with hkv | hkv
      · have hk : k = k0 := congrArg Prod.fst hkv
        have hv : v = v0 := congrArg Prod.snd hkv
        subst hk
        subst hv
        rw [hk0]
        exact ⟨hlen, hsub, hsame⟩
      · exact h4 k v hkv

/-! ## Total mode -/

theorem groupBySubnet_spec (xs : List String) :
    ∀ (acc : ProxyMap),
      (allProxies (groupBySubnet xs acc)).Perm
          (allProxies acc ++ xs.filter (fun s => (ParseIP s).isSome)) ∧
        (WF acc → WF (groupBySubnet xs acc)) ∧
        (Keyed acc → Keyed (groupBySubnet xs acc)) ∧
        ((∀ e ∈ acc, e.2 ≠ []) → ∀ e ∈ groupBySubnet xs acc, e.2 ≠ []) ∧
        (∀ k, lookup (groupBySubnet xs acc) k =
          lookup acc k ++ xs.filter (fun s => decide (subnetOf s = some k))) := by
  induction xs with
  | nil =>
    intro acc
    simp [groupBySubnet]
  | cons x rest ih =>
    intro acc
    cases hx : ParseIP x with
    | none =>
      have hk : ∀ k : String, ¬ subnetOf x = some k := by
        intro k
        simp [subnetOf, hx]
      obtain ⟨h1, h2, h3, h4, h5⟩ := ih acc
      simp only [groupBySubnet, hx]
      refine ⟨?_, h2, h3, h4, ?_⟩
      · simpa [hx] using h1
      · intro k
        rw [h5 k]
        simp [hk k]
    | some ip =>
      obtain ⟨h1, h2, h3, h4, h5⟩ :=
        ih (assign acc (getSubnet ip) (lookup acc (getSubnet ip) ++ [x]))
      simp only [groupBySubnet, hx]
      refine ⟨?_, ?_, ?_, ?_, ?_⟩
      · refine h1.trans ?_
        have hp := allProxies_assign_append acc (getSubnet ip) x
        simp only [List.filter_cons, hx, Option.isSome_some, if_true]
        refine (List.Perm.append_right _ hp).trans ?_
        simp
      · intro hw
        exact h2 (wf_assign _ _ _ hw)
      · intro hk
        apply h3
        intro e he s hs
        rcases mem_assign _ _ _ _ he with he1 | he1
        · subst he1
          simp only [List.mem_append, List.mem_singleton] at hs
          rcases hs with hs | hs
          · by_cases hin : getSubnet ip ∈ keys acc
            · exact hk _ (mem_of_mem_keys acc _ hin) s hs
            · rw [lookup_of_not_mem_keys acc _ hin] at hs
              simp at hs
          · subst hs
            simp [subnetOf, hx]
        · exact hk e he1 s hs
      · intro hne
        apply h4
        intro e he
        rcases mem_assign _ _ _ _ he with he1 | he1
        · subst he1
          simp
        · exact hne e he1
      · intro k
        rw [h5 k, lookup_assign]
        by_cases hkk : getSubnet ip = k
        · subst hkk
          simp [subnetOf, hx]
        · simp [subnetOf, hx, hkk]

/-! ## Claims on `selectRandomProxies` -/

/-- C1. Per-subnet mode (`ipsTotal = 0`, `ipsPerSubnet ≥ 0`): for every map,
every random source and every subnet key `k` of the input, the selection
succeeds, its list at `k` has length `min (len input[k]) ipsPerSubnet`, and it
is a sub-multiset of `input[k]`. -/
theorem c1_per_subnet_size_and_membership (r : Rand) (m : ProxyMap) (ipsPerSubnet : Int)
    (hw : WF m) (hn : 0 ≤ ipsPerSubnet) :
    ∃ res, selectRandomProxies r m ipsPerSubnet 0 = some res ∧
      ∀ k ∈ keys m, (lookup res k).length = min (lookup m k).length ipsPerSubnet.toNat ∧
        (lookup res k).Subperm (lookup m k) := by
  obtain ⟨res, hres, _, _, _, h4⟩ := perSubnetLoop_spec ipsPerSubnet hn m r [] hw
  refine ⟨res, by simpa [selectRandomProxies] using hres, ?_⟩
  intro k hk
  have h := h4 k (lookup m k) (mem_of_mem_keys m k hk)
  exact ⟨h.1, h.2.1⟩

theorem c1_per_subnet_size_and_membership_witness :
    WF [("10.0.1.0/24", ["10.0.1.5", "10.0.1.9"]), ("10.0.2.0/24", ["10.0.2.7"])] ∧
      ∃ res, selectRandomProxies (fun _ => 0)
          [("10.0.1.0/24", ["10.0.1.5", "10.0.1.9"]), ("10.0.2.0/24", ["10.0.2.7"])] 1 0 =
            some res ∧
        ∀ k ∈ keys [("10.0.1.0/24", ["10.0.1.5", "10.0.1.9"]), ("10.0.2.0/24", ["10.0.2.7"])],
          (lookup res k).length =
            min (lookup [("10.0.1.0/24", ["10.0.1.5", "10.0.1.9"]),
              ("10.0.2.0/24", ["10.0.2.7"])] k).length (1 : Int).toNat ∧
          (lookup res k).Subperm
            (lookup [("10.0.1.0/24", ["10.0.1.5", "10.0.1.9"]), ("10.0.2.0/24", ["10.0.2.7"])] k) :=
  ⟨by decide, c1_per_subnet_size_and_membership (fun _ => 0) _ 1 (by decide) (by decide)⟩

/-- C2. Total mode with `0 < ipsTotal < ` the number of stored addresses, every
stored string being an address `net.ParseIP` accepts: for every random source
the selection succeeds, the concatenation of its lists has exactly `ipsTotal`
elements and is a sub-multiset of the concatenation of the input lists, and
every address of the result is filed under the key `getSubnet` computes for
it. -/
theorem c2_total_mode_sample (r : Rand) (m : ProxyMap) (ipsPerSubnet ipsTotal : Int)
    (ht : 0 < ipsTotal) (hlt : ipsTotal < ((allProxies m).length : Int))
    (hvalid : ∀ s ∈ allProxies m, ParseIP s ≠ none) :
    ∃ res, selectRandomProxies r m ipsPerSubnet ipsTotal = some res ∧ WF res ∧
      ((allProxies res).length : Int) = ipsTotal ∧
      (allProxies res).Subperm (allProxies m) ∧
      ∀ e ∈ res, ∀ s ∈ e.2, ∃ ip, ParseIP s = some ip ∧ getSubnet ip = e.1 := by
  have hl : ipsTotal ≤ ((Shuffle r (allProxies m)).1.length : Int) := by
    rw [Shuffle_length]
    omega
  have hsel : selectRandomProxies r m ipsPerSubnet ipsTotal =
      some (groupBySubnet ((Shuffle r (allProxies m)).1.take ipsTotal.toNat) []) := by
    simp [selectRandomProxies, ht, hlt, sliceTo, hl, le_of_lt ht]
  obtain ⟨h1, h2, h3, _, _⟩ :=
    groupBySubnet_spec ((Shuffle r (allProxies m)).1.take ipsTotal.toNat) []
  have hsub : ((Shuffle r (allProxies m)).1.take ipsTotal.toNat).Subperm (allProxies m) :=
    (List.take_sublist _ _).subperm.trans (Shuffle_perm r _).subperm
  have hall : ((Shuffle r (allProxies m)).1.take ipsTotal.toNat).filter
      (fun s => (ParseIP s).isSome) = (Shuffle r (allProxies m)).1.take ipsTotal.toNat := by
    rw [List.filter_eq_self]
    intro s hs
    have := hvalid s (hsub.subset hs)
    exact Option.isSome_iff_ne_none.mpr this
  have hperm : (allProxies (groupBySubnet ((Shuffle r (allProxies m)).1.take ipsTotal.toNat)
      [])).Perm ((Shuffle r (allProxies m)).1.take ipsTotal.toNat) := by
    rw [hall] at h1
    simpa [allProxies] using h1
  refine ⟨_, hsel, h2 (by simp [WF, keys]), ?_, hperm.subperm.trans hsub, ?_⟩
  · rw [hperm.length_eq, List.length_take, Shuffle_length]
    omega
  · intro e he s hs
    have hk : subnetOf s = some e.1 := h3 (by simp [Keyed]) e he s hs
    simpa [subnetOf] using hk

theorem c2_total_mode_sample_witness :
    ∃ res, selectRandomProxies (fun _ => 0)
        [("10.0.1.0/24", ["10.0.1.5", "10.0.1.9"]), ("10.0.2.0/24", ["10.0.2.7"])] 2 2 =
          some res ∧ WF res ∧
      ((allProxies res).length : Int) = 2 ∧
      (allProxies res).Subperm
        (allProxies [("10.0.1.0/24", ["10.0.1.5", "10.0.1.9"]), ("10.0.2.0/24", ["10.0.2.7"])]) ∧
      ∀ e ∈ res, ∀ s ∈ e.2, ∃ ip, ParseIP s = some ip ∧ getSubnet ip = e.1 :=
  c2_total_mode_sample (fun _ => 0)
    [("10.0.1.0/24", ["10.0.1.5", "10.0.1.9"]), ("10.0.2.0/24", ["10.0.2.7"])] 2 2
    (by decide) (by decide) (by decide)

/-- C3. Total mode with `ipsTotal > 0` and `ipsTotal ≥ ` the number of stored
addresses: the result is the empty map, whatever the input, `ipsPerSubnet` and
the random source. -/
theorem c3_total_mode_empty_when_not_exceeding (r : Rand) (m : ProxyMap)
    (ipsPerSubnet ipsTotal : Int) (ht : 0 < ipsTotal)
    (hge : ((allProxies m).length : Int) ≤ ipsTotal) :
    selectRandomProxies r m ipsPerSubnet ipsTotal = some [] := by
  have h : ¬ ((allProxies m).length : Int) > ipsTotal := by omega
  simp [selectRandomProxies, ht, h]

theorem c3_total_mode_empty_when_not_exceeding_witness :
    selectRandomProxies (fun k => k)
      [("10.0.1.0/24", ["10.0.1.5", "10.0.1.9"]), ("10.0.2.0/24", ["10.0.2.7"])] 2 3 = some [] :=
  c3_total_mode_empty_when_not_exceeding (fun k => k)
    [("10.0.1.0/24", ["10.0.1.5", "10.0.1.9"]), ("10.0.2.0/24", ["10.0.2.7"])] 2 3
    (by decide) (by decide)

/-- C9. Per-subnet mode without truncation: with `ipsTotal = 0`, for a subnet
`k` whose address count is at most `ipsPerSubnet`, the selection succeeds and
its list at `k` is the input list itself, for every random source and every
iteration order; so two runs on the same input agree on that subnet. -/
theorem c9_per_subnet_no_truncation_same (r1 r2 : Rand) (m1 m2 : ProxyMap)
    (ipsPerSubnet : Int) (k : String) (hw : WF m1) (hp : m1.Perm m2) (hk : k ∈ keys m1)
    (hle : ((lookup m1 k).length : Int) ≤ ipsPerSubnet) :
    ∃ res1 res2, selectRandomProxies r1 m1 ipsPerSubnet 0 = some res1 ∧
      selectRandomProxies r2 m2 ipsPerSubnet 0 = some res2 ∧
      lookup res1 k = lookup m1 k ∧ lookup res2 k = lookup m1 k := by
  have hn : 0 ≤ ipsPerSubnet := by omega
  have hw2 : WF m2 := (List.Perm.nodup_iff (hp.map Prod.fst)).mp hw
  have hk2 : k ∈ keys m2 := (hp.map Prod.fst).subset hk
  have hl := lookup_perm m1 m2 hp hw k
  obtain ⟨res1, hres1, _, _, _, h14⟩ := perSubnetLoop_spec ipsPerSubnet hn m1 r1 [] hw
  obtain ⟨res2, hres2, _, _, _, h24⟩ := perSubnetLoop_spec ipsPerSubnet hn m2 r2 [] hw2
  refine ⟨res1, res2, by simpa [selectRandomProxies] using hres1,
    by simpa [selectRandomProxies] using hres2, ?_, ?_⟩
  · exact (h14 k _ (mem_of_mem_keys m1 k hk)).2.2 hle
  · have h := (h24 k _ (mem_of_mem_keys m2 k hk2)).2.2 (by rw [← hl]; exact hle)
    rw [h, hl]

theorem c9_per_subnet_no_truncation_same_witness :
    ∃ res1 res2,
      selectRandomProxies (fun _ => 0)
        [("10.0.1.0/24", ["10.0.1.5", "10.0.1.9", "10.0.1.7"]), ("10.0.2.0/24", ["10.0.2.7"])]
        2 0 = some res1 ∧
      selectRandomProxies (fun k => k)
        [("10.0.2.0/24", ["10.0.2.7"]), ("10.0.1.0/24", ["10.0.1.5", "10.0.1.9", "10.0.1.7"])]
        2 0 = some res2 ∧
      lookup res1 "10.0.2.0/24" =
        lookup [("10.0.1.0/24", ["10.0.1.5", "10.0.1.9", "10.0.1.7"]),
          ("10.0.2.0/24", ["10.0.2.7"])] "10.0.2.0/24" ∧
      lookup res2 "10.0.2.0/24" =
        lookup [("10.0.1.0/24", ["10.0.1.5", "10.0.1.9", "10.0.1.7"]),
          ("10.0.2.0/24", ["10.0.2.7"])] "10.0.2.0/24" :=
  c9_per_subnet_no_truncation_same (fun _ => 0) (fun k => k) _ _ 2 "10.0.2.0/24"
    (by decide) (List.Perm.swap _ _ _) (by decide) (by decide)

/-! ## Lemmas on `readProxies` -/

theorem readProxiesLoop_ok (lines : List String) :
    ∀ (acc : ProxyMap), (∀ l ∈ lines, l ≠ "" → ParseIP l ≠ none) →
      readProxiesLoop lines acc =
        Except.ok (groupBySubnet (lines.filter (fun l => decide (l ≠ ""))) acc) := by
  induction lines with
  | nil =>
    intro acc _
    rfl
  | cons x rest ih =>
    intro acc h
    have hrest : ∀ l ∈ rest, l ≠ "" → ParseIP l ≠ none :=
      fun l hl => h l (List.mem_cons_of_mem _ hl)
    by_cases hx : x = ""
    · simp [readProxiesLoop, hx, ih acc hrest]
    · cases hp : ParseIP x with
      | none => exact absurd hp (h x (List.mem_cons_self _ _) hx)
      | some ip => simp [readProxiesLoop, hx, hp, groupBySubnet, ih _ hrest]

theorem readProxiesLoop_error (lines : List String) :
    ∀ (acc : ProxyMap), (∃ l ∈ lines, l ≠ "" ∧ ParseIP l = none) →
      ∃ bad ∈ lines, bad ≠ "" ∧ ParseIP bad = none ∧
        readProxiesLoop lines acc = Except.error (invalidIP bad) := by
  induction lines with
  | nil =>
    intro acc h
    obtain ⟨l, hl, _⟩ := h
    simp at hl
  | cons x rest ih =>
    intro acc h
    have hrest : ¬ (x ≠ "" ∧ ParseIP x = none) → ∃ l ∈ rest, l ≠ "" ∧ ParseIP l = none := by
      intro hx
      obtain ⟨l, hl, hl1⟩ := h
      rcases List.mem_cons.mp hl with hl2 | hl2
      · exact absurd (hl2 ▸ hl1) hx
      · exact ⟨l, hl2, hl1⟩
    by_cases hx : x = ""
    · obtain ⟨bad, hb, hb1, hb2, hb3⟩ := ih acc (hrest (fun hc => hc.1 hx))
      exact ⟨bad, List.mem_cons_of_mem _ hb, hb1, hb2, by simp [readProxiesLoop, hx, hb3]⟩
    · cases hp : ParseIP x with
      | none => exact ⟨x, List.mem_cons_self _ _, hx, hp, by simp [readProxiesLoop, hx, hp]⟩
      | some ip =>
        obtain ⟨bad, hb, hb1, hb2, hb3⟩ :=
          ih (assign acc (getSubnet ip) (lookup acc (getSubnet ip) ++ [x]))
            (hrest (fun hc => by simp [hp] at hc))
        exact ⟨bad, List.mem_cons_of_mem _ hb, hb1, hb2, by simp [readProxiesLoop, hx, hp, hb3]⟩

theorem dropCR_eq_nil (l : List Char) (h : dropCR l = []) : l = [] ∨ l = ['\r'] := by
  match l with
  | [] => exact Or.inl rfl
  | [c] =>
    by_cases hc : c = '\r'
    · exact Or.inr (by rw [hc])
    · simp [dropCR, hc] at h
  | c1 :: c2 :: rest =>
    unfold dropCR at h
    split at h
    · simp at h
    · simp at h

theorem scanTokens_blank (ls : List (List Char)) (h : ∀ l ∈ ls, dropCR l = []) :
    (scanTokens ls).err = none ∧ ∀ t ∈ (scanTokens ls).lines, t = "" := by
  induction ls with
  | nil => simp [scanTokens]
  | cons l rest ih =>
    have hl := h l (List.mem_cons_self _ _)
    have hrest := ih (fun l1 h1 => h l1 (List.mem_cons_of_mem _ h1))
    have hsize : ¬ (String.mk l).utf8ByteSize ≥ MaxScanTokenSize := by
      rcases dropCR_eq_nil l hl with h0 | h0
      · subst h0
        decide
      · subst h0
        decide
    simp only [scanTokens, hsize, if_false, List.mem_cons]
    refine ⟨hrest.1, ?_⟩
    intro t ht
    rcases ht with ht | ht
    · rw [ht, hl]
    · exact hrest.2 t ht

theorem readProxiesLoop_blank (lines : List String) (acc : ProxyMap)
    (h : ∀ l ∈ lines, l = "") : readProxiesLoop lines acc = Except.ok acc := by
  induction lines with
  | nil => rfl
  | cons x rest ih =>
    have hx : x = "" := h x (List.mem_cons_self _ _)
    simp [readProxiesLoop, hx, ih (fun l hl => h l (List.mem_cons_of_mem _ hl))]

/-! ## Claims on `readProxies` -/

/-- C4, as the code has it. When some non-empty line the scanner yields is not
accepted by `net.ParseIP` (it is neither an IPv4 dotted-decimal nor an IPv6
address), `readProxies` returns a nil map together with the error
`invalid IP address: <line>` for such a line, whatever the other lines are. -/
theorem c4_unparsable_line_aborts (fs : FS) (filename content : String)
    (hopen : fs.openFile filename = Except.ok content)
    (hbad : ∃ l ∈ (scanLines content).lines, l ≠ "" ∧ ParseIP l = none) :
    ∃ bad ∈ (scanLines content).lines, bad ≠ "" ∧ ParseIP bad = none ∧
      readProxies fs filename = (none, some (invalidIP bad)) := by
  obtain ⟨bad, hb, hb1, hb2, hb3⟩ := readProxiesLoop_error (scanLines content).lines [] hbad
  exact ⟨bad, hb, hb1, hb2, by simp [readProxies, hopen, hb3]⟩

theorem c4_unparsable_line_aborts_witness :
    ∃ bad ∈ (scanLines "10.0.1.5\n10.0.1\n10.0.2.7\n").lines, bad ≠ "" ∧ ParseIP bad = none ∧
      readProxies ⟨fun _ => Except.ok "10.0.1.5\n10.0.1\n10.0.2.7\n", fun _ => none⟩
        "proxies.txt" = (none, some (invalidIP bad)) :=
  c4_unparsable_line_aborts ⟨fun _ => Except.ok "10.0.1.5\n10.0.1\n10.0.2.7\n", fun _ => none⟩
    "proxies.txt" "10.0.1.5\n10.0.1\n10.0.2.7\n" rfl ⟨"10.0.1", by decide, by decide, by decide⟩

/-- C4 fails as stated: the line `::1` is not an IPv4 address (the IPv4 parser
rejects it and its parsed address has no 4-byte form), yet `readProxies` does
not fail on a file holding it; it files the line under the empty key. -/
theorem c4_ipv6_line_is_loaded :
    parseIPv4 "::1".data = none ∧ (ParseIP "::1").bind To4 = none ∧
      readProxies ⟨fun _ => Except.ok "10.0.1.5\n::1\n", fun _ => none⟩ "proxies.txt" =
        (some [("10.0.1.0/24", ["10.0.1.5"]), ("", ["::1"])], none) := by
  decide

/-- What `readProxies` returns when the scan ends without error and every
non-empty line the scanner yields is accepted by `net.ParseIP`. -/
theorem readProxies_of_scanned (fs : FS) (filename content : String)
    (hopen : fs.openFile filename = Except.ok content)
    (herr : (scanLines content).err = none)
    (hvalid : ∀ l ∈ (scanLines content).lines, l ≠ "" → ParseIP l ≠ none) :
    ∃ m, readProxies fs filename = (some m, none) ∧ WF m ∧
      (∀ k, lookup m k = (scanLines content).lines.filter
        (fun l => decide (l ≠ "") && decide (subnetOf l = some k))) ∧
      (∀ k, k ∈ keys m ↔ ∃ l ∈ (scanLines content).lines, l ≠ "" ∧ subnetOf l = some k) ∧
      (∀ k ∈ keys m, lookup m k ≠ []) ∧
      (∀ l ∈ (scanLines content).lines, l ≠ "" → ∃! k, k ∈ keys m ∧ l ∈ lookup m k) ∧
      (allProxies m).Perm ((scanLines content).lines.filter (fun l => decide (l ≠ ""))) ∧
      (allProxies m).length =
        ((scanLines content).lines.filter (fun l => decide (l ≠ ""))).length := by
  obtain ⟨h1, h2, _, h4, h5⟩ :=
    groupBySubnet_spec ((scanLines content).lines.filter (fun l => decide (l ≠ ""))) []
  have hw := h2 (by simp [WF, keys])
  have hne := h4 (by simp)
  have hlook : ∀ k, lookup (groupBySubnet ((scanLines content).lines.filter
      (fun l => decide (l ≠ ""))) []) k = (scanLines content).lines.filter
        (fun l => decide (l ≠ "") && decide (subnetOf l = some k)) := by
    intro k
    rw [h5 k, List.filter_filter]
    simp [lookup, Bool.and_comm]
  have hperm : (allProxies (groupBySubnet ((scanLines content).lines.filter
      (fun l => decide (l ≠ ""))) [])).Perm
        ((scanLines content).lines.filter (fun l => decide (l ≠ ""))) := by
    have hall : ((scanLines content).lines.filter (fun l => decide (l ≠ ""))).filter
        (fun s => (ParseIP s).isSome) =
          (scanLines content).lines.filter (fun l => decide (l ≠ "")) := by
      rw [List.filter_eq_self]
      intro s hs
      have hs1 := List.mem_filter.mp hs
      exact Option.isSome_iff_ne_none.mpr (hvalid s hs1.1 (by simpa using hs1.2))
    rw [hall] at h1
    simpa [allProxies] using h1
  have hkeys : ∀ k, k ∈ keys (groupBySubnet ((scanLines content).lines.filter
      (fun l => decide (l ≠ ""))) []) ↔
        ∃ l ∈ (scanLines content).lines, l ≠ "" ∧ subnetOf l = some k := by
    intro k
    constructor
    · intro hk
      have hmem := mem_of_mem_keys _ k hk
      have hnil := hne _ hmem
      rw [hlook k] at hnil
      obtain ⟨l, hl⟩ := List.exists_mem_of_ne_nil _ hnil
      have hl1 := List.mem_filter.mp hl
      exact ⟨l, hl1.1, by simpa using hl1.2⟩
    · intro hk
      obtain ⟨l, hl, hl1, hl2⟩ := hk
      by_contra hc
      have hnil := lookup_of_not_mem_keys _ k hc
      rw [hlook k] at hnil
      have hmem : l ∈ (scanLines content).lines.filter
          (fun l => decide (l ≠ "") && decide (subnetOf l = some k)) :=
        List.mem_filter.mpr ⟨hl, by simp [hl1, hl2]⟩
      rw [hnil] at hmem
      simp at hmem
  refine ⟨_, ?_, hw, hlook, hkeys, ?_, ?_, hperm, hperm.length_eq⟩
  · simp [readProxies, hopen, readProxiesLoop_ok _ [] hvalid, herr]
  · intro k hk
    exact hne _ (mem_of_mem_keys _ k hk)
  · intro l hl hl1
    cases hp : ParseIP l with
    | none => exact absurd hp (hvalid l hl hl1)
    | some ip =>
      have hsub : subnetOf l = some (getSubnet ip) := by simp [subnetOf, hp]
      refine ⟨getSubnet ip, ⟨?_, ?_⟩, ?_⟩
      · exact (hkeys _).mpr ⟨l, hl, hl1, hsub⟩
      · rw [hlook]
        exact List.mem_filter.mpr ⟨hl, by simp [hl1, hsub]⟩
      · intro k hk
        have hk2 := hk.2
        rw [hlook] at hk2
        have hk3 := (List.mem_filter.mp hk2).2
        have hk4 : subnetOf l = some k := by simpa [hl1] using hk3
        rw [hsub] at hk4
        exact (Option.some.inj hk4).symm

/-! ## Decimal rendering and subnet keys -/

theorem digitChar_spec (d : Nat) (h : d < 10) :
    isDigit (Nat.digitChar d) = true ∧ digitVal (Nat.digitChar d) = d := by
  interval_cases d <;> decide

theorem isDigit_ne_dot (c : Char) (h : isDigit c = true) : c ≠ '.' := by
  intro hc
  subst hc
  exact absurd h (by decide)

theorem toDigitsCore_isDigit (fuel : Nat) :
    ∀ (n : Nat) (ds : List Char), (∀ c ∈ ds, isDigit c = true) →
      ∀ c ∈ Nat.toDigitsCore 10 fuel n ds, isDigit c = true := by
  induction fuel with
  | zero =>
    intro n ds h
    simpa [Nat.toDigitsCore] using h
  | succ fuel ih =>
    intro n ds h
    have hd : ∀ c ∈ Nat.digitChar (n % 10) :: ds, isDigit c = true := by
      intro c hc
      rcases List.mem_cons.mp hc with hc | hc
      · rw [hc]
        exact (digitChar_spec _ (Nat.mod_lt _ (by decide))).1
      · exact h c hc
    rw [Nat.toDigitsCore]
    split
    · exact hd
    · exact ih _ _ hd

/-- Reading a decimal numeral back, continuing from the value `acc`. -/
theorem readDec_toDigitsCore (fuel : Nat) :
    ∀ (n : Nat) (ds : List Char), n < fuel →
      List.foldl (fun acc c => acc * 10 + digitVal c) 0 (Nat.toDigitsCore 10 fuel n ds) =
        List.foldl (fun acc c => acc * 10 + digitVal c) n ds := by
  induction fuel with
  | zero =>
    intro n ds h
    omega
  | succ fuel ih =>
    intro n ds h
    have hv := (digitChar_spec (n % 10) (Nat.mod_lt _ (by decide))).2
    rw [Nat.toDigitsCore]
    split
    · rename_i h0
      have hn : n % 10 = n := by omega
      simp only [List.foldl_cons, hv, Nat.zero_mul, Nat.zero_add]
      rw [hn]
    · rename_i h0
      have hlt : n / 10 < fuel := by omega
      rw [ih _ _ hlt]
      have hn : n / 10 * 10 + n % 10 = n := by omega
      simp only [List.foldl_cons, hv, hn]

theorem fmtD_data_injective (a b : Nat) (h : (fmtD a).data = (fmtD b).data) : a = b := by
  have ha := readDec_toDigitsCore (a + 1) a [] (Nat.lt_succ_self a)
  have hb := readDec_toDigitsCore (b + 1) b [] (Nat.lt_succ_self b)
  have h1 : Nat.toDigitsCore 10 (a + 1) a [] = Nat.toDigitsCore 10 (b + 1) b [] := h
  rw [h1, hb] at ha
  simpa using ha.symm

theorem fmtD_isDigit (a : Nat) : ∀ c ∈ (fmtD a).data, isDigit c = true :=
  toDigitsCore_isDigit (a + 1) a [] (by simp)

/-- Two texts that agree and whose parts before the first dot are dot-free
agree part by part. -/
theorem split_at_dot (u1 : List Char) :
    ∀ (u2 r1 r2 : List Char), (∀ c ∈ u1, c ≠ '.') → (∀ c ∈ u2, c ≠ '.') →
      u1 ++ '.' :: r1 = u2 ++ '.' :: r2 → u1 = u2 ∧ r1 = r2 := by
  induction u1 with
  | nil =>
    intro u2 r1 r2 _ h2 h
    cases u2 with
    | nil => simpa using h
    | cons c u2 =>
      have hc : '.' = c := by simpa using (List.cons.inj h).1
      exact absurd hc.symm (h2 c (List.mem_cons_self _ _))
  | cons c u1 ih =>
    intro u2 r1 r2 h1 h2 h
    cases u2 with
    | nil =>
      have hc : c = '.' := by simpa using (List.cons.inj h).1
      exact absurd hc (h1 c (List.mem_cons_self _ _))
    | cons d u2 =>
      have hh := List.cons.inj h
      have := ih u2 r1 r2 (fun x hx => h1 x (List.mem_cons_of_mem _ hx))
        (fun x hx => h2 x (List.mem_cons_of_mem _ hx)) hh.2
      exact ⟨by rw [hh.1, this.1], this.2⟩

/-- Text of the key `getSubnet` builds from three octets. -/
theorem subnetKey_data (a b c : Nat) :
    (fmtD a ++ "." ++ fmtD b ++ "." ++ fmtD c ++ ".0/24").data =
      (fmtD a).data ++ '.' :: ((fmtD b).data ++ '.' :: ((fmtD c).data ++ '.' ::
        ['0', '/', '2', '4'])) := by
  simp [String.data_append]

theorem subnetKey_injective (a b c a1 b1 c1 : Nat)
    (h : fmtD a ++ "." ++ fmtD b ++ "." ++ fmtD c ++ ".0/24" =
      fmtD a1 ++ "." ++ fmtD b1 ++ "." ++ fmtD c1 ++ ".0/24") :
    a = a1 ∧ b = b1 ∧ c = c1 := by
  have hd := congrArg String.data h
  rw [subnetKey_data, subnetKey_data] at hd
  have nd : ∀ n : Nat, ∀ x ∈ (fmtD n).data, x ≠ '.' :=
    fun n x hx => isDigit_ne_dot x (fmtD_isDigit n x hx)
  have h1 := split_at_dot _ _ _ _ (nd a) (nd a1) hd
  have h2 := split_at_dot _ _ _ _ (nd b) (nd b1) h1.2
  have h3 := split_at_dot _ _ _ _ (nd c) (nd c1) h2.2
  exact ⟨fmtD_data_injective _ _ h1.1, fmtD_data_injective _ _ h2.1,
    fmtD_data_injective _ _ h3.1⟩

/-- C5. For IPv4 addresses `x` and `y` (addresses with a 4-byte form `x4`,
`y4`), `getSubnet x = getSubnet y` if and only if the first three octets
agree; the fourth octet plays no part. -/
theorem c5_getSubnet_eq_iff_first_three_octets (x y x4 y4 : IP)
    (hx : To4 x = some x4) (hy : To4 y = some y4) :
    getSubnet x = getSubnet y ↔
      x4.getD 0 0 = y4.getD 0 0 ∧ x4.getD 1 0 = y4.getD 1 0 ∧ x4.getD 2 0 = y4.getD 2 0 := by
  simp only [getSubnet, hx, hy]
  constructor
  · intro h
    exact subnetKey_injective _ _ _ _ _ _ h
  · intro h
    rw [h.1, h.2.1, h.2.2]

theorem c5_getSubnet_eq_iff_first_three_octets_witness :
    (getSubnet [10, 0, 1, 5] = getSubnet [0, 0, 0, 0, 0, 0, 0, 0, 0, 0, 255, 255, 10, 0, 1, 9] ↔
      [10, 0, 1, 5].getD 0 0 = [10, 0, 1, 9].getD 0 0 ∧
        [10, 0, 1, 5].getD 1 0 = [10, 0, 1, 9].getD 1 0 ∧
        [10, 0, 1, 5].getD 2 0 = [10, 0, 1, 9].getD 2 0) ∧
      getSubnet [10, 0, 1, 5] = "10.0.1.0/24" ∧ getSubnet [10, 0, 2, 5] ≠ "10.0.1.0/24" :=
  ⟨c5_getSubnet_eq_iff_first_three_octets [10, 0, 1, 5]
      [0, 0, 0, 0, 0, 0, 0, 0, 0, 0, 255, 255, 10, 0, 1, 9] [10, 0, 1, 5] [10, 0, 1, 9]
      (by decide) (by decide), by decide, by decide⟩

/-! ## The report -/

theorem lastIndexFrom_no_dot (ys : List Char) :
    ∀ (i : Nat) (last : Int), (∀ c ∈ ys, c ≠ '.') → lastIndexFrom ys i last = last := by
  induction ys with
  | nil =>
    intro i last _
    rfl
  | cons c ys ih =>
    intro i last h
    have hc : c ≠ '.' := h c (List.mem_cons_self _ _)
    simp only [lastIndexFrom, hc, if_false]
    exact ih _ _ (fun x hx => h x (List.mem_cons_of_mem _ hx))

theorem lastIndexFrom_last_dot (xs : List Char) :
    ∀ (ys : List Char) (i : Nat) (last : Int), (∀ c ∈ ys, c ≠ '.') →
      lastIndexFrom (xs ++ '.' :: ys) i last = ((i + xs.length : Nat) : Int) := by
  induction xs with
  | nil =>
    intro ys i last h
    simp only [List.nil_append, lastIndexFrom, if_true, List.length_nil, Nat.add_zero]
    exact lastIndexFrom_no_dot ys _ _ h
  | cons c xs ih =>
    intro ys i last h
    have hstep : lastIndexFrom (c :: xs ++ '.' :: ys) i last =
        lastIndexFrom (xs ++ '.' :: ys) (i + 1) (if c = '.' then (i : Int) else last) := rfl
    rw [hstep, ih ys (i + 1) _ h]
    congr 1
    simp only [List.length_cons]
    omega

/-- The header prefix of a key whose last dot is followed by `ys`: the key up
to and including that dot. -/
theorem headerPrefix_of_last_dot (subnet : String) (xs ys : List Char)
    (hkey : subnet.data = xs ++ '.' :: ys) (hys : ∀ c ∈ ys, c ≠ '.') :
    strSliceTo subnet (LastIndex subnet + 1) = some (String.mk (xs ++ ['.'])) := by
  have hl : LastIndex subnet = ((xs.length : Nat) : Int) := by
    unfold LastIndex
    rw [hkey, lastIndexFrom_last_dot xs ys 0 (-1) hys]
    simp
  have hb : (xs.length : Int) + 1 ≤ ((xs ++ '.' :: ys).length : Int) := by
    simp only [List.length_append, List.length_cons]
    omega
  have ht : ((xs.length : Int) + 1).toNat = xs.length + 1 := by omega
  have hn : (0 : Int) ≤ (xs.length : Int) + 1 := by omega
  unfold strSliceTo
  rw [hl, hkey, if_pos ⟨hn, hb⟩, ht]
  congr 2
  rw [List.take_append_eq_append_take]
  simp

theorem writeSection_subnetKey (a b c : Nat) (proxies : List String) :
    writeSection (subnetKey a b c) proxies = some (specSection a b c proxies) := by
  have hkey : (subnetKey a b c).data =
      ((fmtD a).data ++ '.' :: ((fmtD b).data ++ '.' :: (fmtD c).data)) ++ '.' ::
        ['0', '/', '2', '4'] := by
    unfold subnetKey
    rw [subnetKey_data]
    simp
  have hp := headerPrefix_of_last_dot (subnetKey a b c) _ _ hkey (by decide)
  have hs : String.mk (((fmtD a).data ++ '.' :: ((fmtD b).data ++ '.' :: (fmtD c).data)) ++
      ['.']) = fmtD a ++ "." ++ fmtD b ++ "." ++ fmtD c ++ "." := by
    apply String.ext
    simp [String.data_append]
  rw [hs] at hp
  simp only [writeSection, hp, specSection]

theorem foldl_append_string (l : List String) :
    ∀ acc : String, List.foldl (fun r s => r ++ s) acc l =
      acc ++ List.foldl (fun r s => r ++ s) "" l := by
  induction l with
  | nil =>
    intro acc
    simp
  | cons x xs ih =>
    intro acc
    rw [List.foldl_cons, List.foldl_cons, ih (acc ++ x), ih ("" ++ x)]
    simp [String.append_assoc]

theorem join_cons_string (x : String) (l : List String) :
    String.join (x :: l) = x ++ String.join l := by
  unfold String.join
  rw [List.foldl_cons, foldl_append_string]
  simp

theorem report_subnetKeys (entries : List ((Nat × Nat × Nat) × List String)) :
    report (entries.map (fun e => (subnetKey e.1.1 e.1.2.1 e.1.2.2, e.2))) =
      some (String.join (entries.map (fun e => specSection e.1.1 e.1.2.1 e.1.2.2 e.2))) := by
  induction entries with
  | nil => rfl
  | cons e rest ih =>
    simp only [List.map_cons, report, writeSection_subnetKey, ih, join_cons_string]

/-- C7. For a selection whose keys are subnet keys `a.b.c.0/24`, a successful
`writeResults` leaves in the output file the concatenation, over the entries
in iteration order (each key once), of the section made of the header line
`a.b.c. subnet, <n> IPs:`, the addresses of the list one per line in list
order, and one empty line; it returns no error. -/
theorem c7_writeResults_format (fs : FS) (filename : String)
    (entries : List ((Nat × Nat × Nat) × List String))
    (hcreate : fs.createErr filename = none) :
    ∃ fs1, writeResults fs filename
        (entries.map (fun e => (subnetKey e.1.1 e.1.2.1 e.1.2.2, e.2))) = some (fs1, none) ∧
      fs1.openFile filename = Except.ok
        (String.join (entries.map (fun e => specSection e.1.1 e.1.2.1 e.1.2.2 e.2))) ∧
      ∀ other, other ≠ filename → fs1.openFile other = fs.openFile other := by
  refine ⟨fs.write filename
    (String.join (entries.map (fun e => specSection e.1.1 e.1.2.1 e.1.2.2 e.2))), ?_, ?_, ?_⟩
  · simp only [writeResults, hcreate, report_subnetKeys]
  · simp [FS.write]
  · intro other h
    simp [FS.write, h]

theorem c7_writeResults_format_witness :
    (∃ fs1, writeResults ⟨fun _ => Except.error (Error.io "no such file"), fun _ => none⟩
        "results.txt"
        ([((10, 0, 1), ["10.0.1.5", "10.0.1.9"])].map
          (fun e => (subnetKey e.1.1 e.1.2.1 e.1.2.2, e.2))) = some (fs1, none) ∧
      fs1.openFile "results.txt" = Except.ok
        (String.join ([((10, 0, 1), ["10.0.1.5", "10.0.1.9"])].map
          (fun e => specSection e.1.1 e.1.2.1 e.1.2.2 e.2))) ∧
      ∀ other, other ≠ "results.txt" → fs1.openFile other =
        (FS.mk (fun _ => Except.error (Error.io "no such file")) (fun _ => none)).openFile
          other) ∧
      [((10, 0, 1), ["10.0.1.5", "10.0.1.9"])].map
          (fun e => (subnetKey e.1.1 e.1.2.1 e.1.2.2, e.2)) =
        [("10.0.1.0/24", ["10.0.1.5", "10.0.1.9"])] ∧
      String.join ([((10, 0, 1), ["10.0.1.5", "10.0.1.9"])].map
          (fun e => specSection e.1.1 e.1.2.1 e.1.2.2 e.2)) =
        "10.0.1. subnet, 2 IPs:\n10.0.1.5\n10.0.1.9\n\n" :=
  ⟨c7_writeResults_format ⟨fun _ => Except.error (Error.io "no such file"), fun _ => none⟩
    "results.txt" [((10, 0, 1), ["10.0.1.5", "10.0.1.9"])] rfl, by decide, by decide⟩

/-! ## Selection after loading -/

theorem readProxiesLoop_eq_ok (lines : List String) :
    ∀ (acc m : ProxyMap), readProxiesLoop lines acc = Except.ok m →
      m = groupBySubnet (lines.filter (fun l => decide (l ≠ ""))) acc := by
  induction lines with
  | nil =>
    intro acc m h
    simpa [readProxiesLoop, groupBySubnet] using h.symm
  | cons x rest ih =>
    intro acc m h
    by_cases hx : x = ""
    · simp only [readProxiesLoop, hx, if_true] at h
      simpa [hx] using ih acc m h
    · cases hp : ParseIP x with
      | none => simp [readProxiesLoop, hx, hp] at h
      | some ip =>
        simp only [readProxiesLoop, hx, hp, if_false] at h
        simpa [hx, hp, groupBySubnet] using ih _ m h

theorem readProxies_wf_keyed (fs : FS) (filename : String) (m : ProxyMap)
    (h : readProxies fs filename = (some m, none)) : WF m ∧ Keyed m := by
  unfold readProxies at h
  split at h
  · simp at h
  · rename_i content _
    split at h
    · simp at h
    · rename_i proxies hloop
      split at h
      · simp at h
      · have hm : proxies = m := by simpa using h
        subst hm
        rw [readProxiesLoop_eq_ok _ _ _ hloop]
        obtain ⟨_, h2, h3, _, _⟩ :=
          groupBySubnet_spec ((scanLines content).lines.filter (fun l => decide (l ≠ ""))) []
        exact ⟨h2 (by simp [WF, keys]), h3 (by simp [Keyed])⟩

theorem filter_allProxies_keyed (m : ProxyMap) (hw : WF m) (hk : Keyed m) (k : String) :
    (allProxies m).filter (fun s => decide (subnetOf s = some k)) = lookup m k := by
  induction m with
  | nil => rfl
  | cons e rest ih =>
    obtain ⟨k0, v0⟩ := e
    have hw1 : k0 ∉ keys rest ∧ WF rest := by
      simpa [WF, keys] using hw
    have hk1 : Keyed rest := fun e he => hk e (List.mem_cons_of_mem _ he)
    have hv0 : ∀ s ∈ v0, subnetOf s = some k0 := hk (k0, v0) (List.mem_cons_self _ _)
    have ih1 := ih hw1.2 hk1
    have hflat : allProxies ((k0, v0) :: rest) = v0 ++ allProxies rest := rfl
    rw [hflat, List.filter_append, ih1]
    by_cases h0 : k0 = k
    · subst h0
      have hf : v0.filter (fun s => decide (subnetOf s = some k0)) = v0 := by
        rw [List.filter_eq_self]
        intro s hs
        simp [hv0 s hs]
      rw [hf, lookup_of_not_mem_keys rest k0 hw1.1]
      simp [lookup]
    · have hf : v0.filter (fun s => decide (subnetOf s = some k)) = [] := by
        rw [List.filter_eq_nil_iff]
        intro s hs
        simp [hv0 s hs, h0]
      rw [hf]
      simp [lookup, h0]

/-- C8. For a map `m` produced by `readProxies`, visited in any iteration order
`m1`, every `ipsPerSubnet ≥ 0`, every `ipsTotal` and every random source, the
selection succeeds, each of its keys is a key of `m`, and its list at a key is
a sub-multiset of the list `m` has there, hence no longer; in total mode too. -/
theorem c8_selection_within_loaded_subnets (fs : FS) (filename : String) (m m1 : ProxyMap)
    (r : Rand) (ipsPerSubnet ipsTotal : Int)
    (hread : readProxies fs filename = (some m, none)) (hperm : m1.Perm m)
    (hn : 0 ≤ ipsPerSubnet) :
    ∃ res, selectRandomProxies r m1 ipsPerSubnet ipsTotal = some res ∧
      ∀ k ∈ keys res, k ∈ keys m ∧ (lookup res k).Subperm (lookup m k) ∧
        (lookup res k).length ≤ (lookup m k).length := by
  obtain ⟨hwm, hkm⟩ := readProxies_wf_keyed fs filename m hread
  have hw1 : WF m1 := (List.Perm.nodup_iff (hperm.map Prod.fst)).mpr hwm
  have hk1 : Keyed m1 := fun e he => hkm e (hperm.subset he)
  have hlook : ∀ k, lookup m1 k = lookup m k := lookup_perm m1 m hperm hw1
  have hkeys : ∀ k, k ∈ keys m1 → k ∈ keys m := fun k hk => (hperm.map Prod.fst).subset hk
  by_cases ht : ipsTotal > 0
  · by_cases hlen : ((allProxies m1).length : Int) > ipsTotal
    · have hl : ipsTotal ≤ ((Shuffle r (allProxies m1)).1.length : Int) := by
        rw [Shuffle_length]
        omega
      have hsel : selectRandomProxies r m1 ipsPerSubnet ipsTotal =
          some (groupBySubnet ((Shuffle r (allProxies m1)).1.take ipsTotal.toNat) []) := by
        simp [selectRandomProxies, ht, hlen, sliceTo, hl, le_of_lt ht]
      obtain ⟨_, _, _, h4, h5⟩ :=
        groupBySubnet_spec ((Shuffle r (allProxies m1)).1.take ipsTotal.toNat) []
      have hsub : ∀ k, (lookup (groupBySubnet
          ((Shuffle r (allProxies m1)).1.take ipsTotal.toNat) []) k).Subperm (lookup m k) := by
        intro k
        rw [h5 k, ← hlook k, ← filter_allProxies_keyed m1 hw1 hk1 k]
        simp only [lookup, List.nil_append]
        exact ((List.take_sublist _ _).filter _).subperm.trans
          ((Shuffle_perm r _).filter _).subperm
      refine ⟨_, hsel, ?_⟩
      intro k hk
      refine ⟨?_, hsub k, (hsub k).length_le⟩
      by_contra hc
      have hnil := lookup_of_not_mem_keys m k hc
      have hne := h4 (by simp) _ (mem_of_mem_keys _ k hk)
      have hle := (hsub k).length_le
      rw [hnil] at hle
      exact hne (List.eq_nil_of_length_eq_zero (by simpa using hle))
    · refine ⟨[], by simp [selectRandomProxies, ht, hlen], ?_⟩
      intro k hk
      simp [keys] at hk
  · obtain ⟨res, hres, _, h2, _, h4⟩ := perSubnetLoop_spec ipsPerSubnet hn m1 r [] hw1
    refine ⟨res, by simpa [selectRandomProxies, ht] using hres, ?_⟩
    intro k hk
    have hk2 : k ∈ keys m1 := by
      rcases (h2 k).mp hk with hk3 | hk3
      · simp [keys] at hk3
      · exact hk3
    have h := (h4 k _ (mem_of_mem_keys m1 k hk2)).2.1
    rw [hlook k] at h
    exact ⟨hkeys k hk2, h, h.length_le⟩

theorem c8_selection_within_loaded_subnets_witness :
    ∃ res, selectRandomProxies (fun k => k)
        [("10.0.2.0/24", ["10.0.2.7"]), ("10.0.1.0/24", ["10.0.1.5", "10.0.1.9"])] 1 2 =
          some res ∧
      ∀ k ∈ keys res, k ∈ keys [("10.0.1.0/24", ["10.0.1.5", "10.0.1.9"]),
          ("10.0.2.0/24", ["10.0.2.7"])] ∧
        (lookup res k).Subperm (lookup [("10.0.1.0/24", ["10.0.1.5", "10.0.1.9"]),
          ("10.0.2.0/24", ["10.0.2.7"])] k) ∧
        (lookup res k).length ≤ (lookup [("10.0.1.0/24", ["10.0.1.5", "10.0.1.9"]),
          ("10.0.2.0/24", ["10.0.2.7"])] k).length :=
  c8_selection_within_loaded_subnets
    ⟨fun _ => Except.ok "10.0.1.5\n10.0.2.7\n\n10.0.1.9\n", fun _ => none⟩ "proxies.txt"
    [("10.0.1.0/24", ["10.0.1.5", "10.0.1.9"]), ("10.0.2.0/24", ["10.0.2.7"])]
    [("10.0.2.0/24", ["10.0.2.7"]), ("10.0.1.0/24", ["10.0.1.5", "10.0.1.9"])]
    (fun k => k) 1 2 (by decide) (List.Perm.swap _ _ _) (by decide)

/-! ## Accepted addresses are short texts -/

theorem isDigit_bounds (c : Char) (h : isDigit c = true) : 48 ≤ c.toNat ∧ c.toNat ≤ 57 := by
  have h0 : '0'.toNat = 48 := by decide
  have h9 : '9'.toNat = 57 := by decide
  simp only [isDigit, Bool.and_eq_true, decide_eq_true_eq, h0, h9] at h
  exact h

theorem remDigits_step (val digLen x : Nat) (hx : x ≤ 9) (hz : ¬ (digLen = 1 ∧ val = 0))
    (hbig : val * 10 + x ≤ 255) (h1 : digLen = 0 → val = 0) (h2 : val = 0 → digLen ≤ 1) :
    (if digLen + 1 = 0 then 3 else if val * 10 + x = 0 then 0 else if val * 10 + x < 10 then 2
        else if val * 10 + x < 100 then 1 else 0) + 1 ≤
      (if digLen = 0 then 3 else if val = 0 then 0 else if val < 10 then 2
        else if val < 100 then 1 else 0) := by
  split_ifs <;> first | omega | contradiction

theorem parseIPv4Loop_bound (s : List Char) :
    ∀ (prev : Option Char) (fields : List Nat) (val digLen : Nat) (res : List Nat × Nat),
      parseIPv4Loop s prev fields val digLen = some res →
      fields.length ≤ 3 → (digLen = 0 → val = 0) → (val = 0 → digLen ≤ 1) →
      s.length + 4 * fields.length ≤
          12 + (if digLen = 0 then 3 else if val = 0 then 0 else if val < 10 then 2
            else if val < 100 then 1 else 0) := by
  induction s with
  | nil =>
    intro prev fields val digLen res _ hf _ _
    simp only [List.length_nil]
    omega
  | cons c rest ih =>
    intro prev fields val digLen res h hf h1 h2
    by_cases hd : isDigit c = true
    · have hb := isDigit_bounds c hd
      have hv : digitVal c = c.toNat - 48 := by
        have h0 : '0'.toNat = 48 := by decide
        simp only [digitVal, h0]
      by_cases hz : digLen = 1 ∧ val = 0
      · simp [parseIPv4Loop, hd, hz] at h
      · by_cases hbig : val * 10 + digitVal c > 255
        · simp [parseIPv4Loop, hd, hz, hbig] at h
        · simp only [parseIPv4Loop, hd, hz, hbig, if_true, if_false] at h
          have hr := ih (some c) fields (val * 10 + digitVal c) (digLen + 1) res h hf
            (by omega) (by omega)
          have hstep := remDigits_step val digLen (digitVal c) (by omega) hz (by omega) h1 h2
          simp only [List.length_cons]
          omega
    · by_cases hdot : c = '.'
      · subst hdot
        have hd0 : isDigit '.' = false := by decide
        by_cases hbad : prev = none ∨ rest = [] ∨ prev = some '.'
        · simp [parseIPv4Loop, hd0, hbad] at h
        · by_cases h3 : fields.length = 3
          · simp [parseIPv4Loop, hd0, hbad, h3] at h
          · simp only [parseIPv4Loop, hd0, hbad, h3, if_true, if_false] at h
            have hr := ih (some '.') (fields ++ [val]) 0 0 res (by simpa using h)
              (by simp only [List.length_append, List.length_singleton]; omega)
              (fun _ => rfl) (fun _ => Nat.zero_le _)
            simp only [List.length_append, List.length_singleton, if_true] at hr
            simp only [List.length_cons]
            split_ifs <;> omega
      · simp [parseIPv4Loop, hd, hdot] at h

theorem parseIPv4_bound (s : List Char) (res : List Nat) (h : parseIPv4 s = some res) :
    s.length ≤ 15 := by
  unfold parseIPv4 at h
  split at h
  · simp at h
  · rename_i fields val hloop
    have h1 := parseIPv4Loop_bound s none [] 0 0 (fields, val) hloop (by simp)
      (fun _ => rfl) (fun _ => Nat.zero_le _)
    simp only [List.length_nil, if_true] at h1
    omega

theorem hexGroup_bound (s : List Char) :
    ∀ (off acc off1 acc1 : Nat) (rest : List Char),
      hexGroup s off acc = some (off1, acc1, rest) → off ≤ 4 →
      s.length + off = rest.length + off1 ∧ off1 ≤ 4 := by
  induction s with
  | nil =>
    intro off acc off1 acc1 rest h hoff
    simp only [hexGroup, Option.some.injEq, Prod.mk.injEq] at h
    obtain ⟨h1, _, h3⟩ := h
    subst h1
    subst h3
    exact ⟨rfl, hoff⟩
  | cons c rest0 ih =>
    intro off acc off1 acc1 rest h hoff
    cases hv : hexVal c with
    | none =>
      simp only [hexGroup, hv, Option.some.injEq, Prod.mk.injEq] at h
      obtain ⟨h1, _, h3⟩ := h
      subst h1
      subst h3
      exact ⟨rfl, hoff⟩
    | some d =>
      simp only [hexGroup, hv] at h
      split at h
      · simp at h
      · split at h
        · simp at h
        · have hr := ih (off + 1) _ off1 acc1 rest h (by omega)
          simp only [List.length_cons]
          omega

theorem parseIPv6Loop_bound (fuel : Nat) :
    ∀ (s : List Char) (ip : List Nat) (ellipsis : Option Nat)
      (res : List Char × List Nat × Option Nat),
      parseIPv6Loop fuel s ip ellipsis = some res →
      s.length ≤ res.1.length + 6 * fuel + 15 := by
  induction fuel with
  | zero =>
    intro s ip ellipsis res h
    simp only [parseIPv6Loop, Option.some.injEq] at h
    subst h
    simp
  | succ fuel ih =>
    intro s ip ellipsis res h
    rw [parseIPv6Loop] at h
    split at h
    · simp only [Option.some.injEq] at h
      subst h
      simp only
      omega
    · split at h
      · simp at h
      · rename_i off acc rest1 hg
        have hb := hexGroup_bound s 0 0 off acc rest1 hg (by omega)
        split at h
        · simp at h
        · split at h
          · split at h
            · simp at h
            · split at h
              · simp at h
              · split at h
                · simp at h
                · rename_i ip4 h4
                  have := parseIPv4_bound s ip4 h4
                  omega
          · split at h
            · simp only [Option.some.injEq] at h
              subst h
              simp only [List.length_nil] at hb ⊢
              omega
            · rename_i c rest2
              split at h
              · simp at h
              · split at h
                · simp at h
                · rename_i c1 rest3
                  simp only [List.length_cons] at hb
                  split at h
                  · split at h
                    · simp at h
                    · split at h
                      · rename_i hnil
                        simp only [Option.some.injEq] at h
                        subst h
                        subst hnil
                        simp only [List.length_nil] at hb ⊢
                        omega
                      · have hr := ih _ _ _ _ h
                        omega
                  · have hr := ih _ _ _ _ h
                    simp only [List.length_cons] at hr
                    omega

theorem parseIPv6Addr_tail (s1 : List Char) (e0 : Option Nat) (ip : List Nat)
    (h : (match parseIPv6Loop 8 s1 [] e0 with
      | none => none
      | some (rest, ip, ellipsis) =>
        if rest ≠ [] then none
        else if ip.length < 16 then
          match ellipsis with
          | none => none
          | some e => some (ip.take e ++ List.replicate (16 - ip.length) 0 ++ ip.drop e)
        else if ellipsis.isSome then none
        else some ip) = some ip) : s1.length ≤ 63 := by
  split at h
  · simp at h
  · rename_i rest ip1 ell hloop
    have hb := parseIPv6Loop_bound 8 _ _ _ _ hloop
    split at h
    · simp at h
    · rename_i hrest
      have hr : rest = [] := by simpa using hrest
      subst hr
      simp only [List.length_nil] at hb
      omega

theorem parseIPv6Addr_bound (s : List Char) (ip : List Nat)
    (h : parseIPv6Addr s = some ip) : s.length ≤ 65 := by
  unfold parseIPv6Addr at h
  simp only at h
  generalize (match s with
    | ':' :: ':' :: _ => true
    | _ => false) = lead at h
  cases lead with
  | false =>
    simp only [Bool.false_eq_true, false_and, if_false] at h
    have := parseIPv6Addr_tail s none ip h
    omega
  | true =>
    simp only [true_and, if_true] at h
    by_cases hnil : s.drop 2 = []
    · have hl : (s.drop 2).length = 0 := by rw [hnil]; rfl
      rw [List.length_drop] at hl
      omega
    · simp only [hnil, if_false] at h
      have := parseIPv6Addr_tail (s.drop 2) (some 0) ip h
      rw [List.length_drop] at this
      omega

theorem parseIPv6_bound (s : List Char) (ip : List Nat) (zone : List Char)
    (h : parseIPv6 s = some (ip, zone)) (hz : zone = []) : s.length ≤ 65 := by
  unfold parseIPv6 at h
  split at h
  · split at h
    · simp at h
    · rename_i hne
      simp only [Option.map_eq_some', Prod.mk.injEq] at h
      obtain ⟨_, _, _, h3⟩ := h
      rw [hz] at h3
      exact absurd h3 hne
  · simp only [Option.map_eq_some', Prod.mk.injEq] at h
    obtain ⟨ip1, h1, _, _⟩ := h
    exact parseIPv6Addr_bound s ip1 h1

theorem parseAddrFrom_bound (s : List Char) (t : List Char) :
    ∀ (ip : IP) (zone : List Char), parseAddrFrom s t = some (ip, zone) → zone = [] →
      s.length ≤ 65 := by
  induction t with
  | nil =>
    intro ip zone h _
    simp [parseAddrFrom] at h
  | cons c rest ih =>
    intro ip zone h hz
    rw [parseAddrFrom] at h
    split at h
    · simp only [Option.map_eq_some', Prod.mk.injEq] at h
      obtain ⟨ip4, h4, _, _⟩ := h
      have := parseIPv4_bound s ip4 h4
      omega
    · split at h
      · exact parseIPv6_bound s ip zone h hz
      · split at h
        · simp at h
        · exact ih ip zone h hz

/-- A text `net.ParseIP` accepts has at most 65 characters. -/
theorem ParseIP_length (s : String) (h : ParseIP s ≠ none) : s.data.length ≤ 65 := by
  unfold ParseIP at h
  split at h
  · exact absurd rfl h
  · rename_i ip zone haddr
    by_cases hz : zone = []
    · exact parseAddrFrom_bound s.data s.data ip zone haddr hz
    · simp [hz] at h

theorem utf8ByteSize_le (l : List Char) : (String.mk l).utf8ByteSize ≤ 4 * l.length := by
  have hgo : ∀ cs : List Char, String.utf8ByteSize.go cs ≤ 4 * cs.length := by
    intro cs
    induction cs with
    | nil => simp [String.utf8ByteSize.go]
    | cons c cs ih =>
      have := Char.utf8Size_le_four c
      simp only [String.utf8ByteSize.go, List.length_cons]
      omega
  exact hgo l

theorem length_le_of_dropCR (l : List Char) : l.length ≤ (dropCR l).length + 1 := by
  unfold dropCR
  split
  · simp only [List.length_dropLast]
    omega
  · omega

/-- The lines of a file as `readProxies` sees them when none is too long for
the scanner: the raw lines, each without its trailing carriage return. -/
theorem scanTokens_of_short (ls : List (List Char))
    (h : ∀ l ∈ ls, (dropCR l).length ≤ 65) :
    (scanTokens ls).err = none ∧
      (scanTokens ls).lines = ls.map (fun l => String.mk (dropCR l)) := by
  induction ls with
  | nil => simp [scanTokens]
  | cons l rest ih =>
    have hl := h l (List.mem_cons_self _ _)
    have hrest := ih (fun l1 h1 => h l1 (List.mem_cons_of_mem _ h1))
    have hsize : ¬ (String.mk l).utf8ByteSize ≥ MaxScanTokenSize := by
      have h1 := utf8ByteSize_le l
      have h2 := length_le_of_dropCR l
      simp only [MaxScanTokenSize]
      omega
    simp only [scanTokens, hsize, if_false, List.map_cons, hrest.1, hrest.2, and_self]

theorem scanLines_of_valid (content : String)
    (hvalid : ∀ l ∈ fileLines content, l ≠ "" → ParseIP l ≠ none) :
    (scanLines content).err = none ∧ (scanLines content).lines = fileLines content := by
  apply scanTokens_of_short
  intro l hl
  by_cases he : String.mk (dropCR l) = ""
  · have h0 : dropCR l = [] := congrArg String.data he
    rw [h0]
    simp
  · have hmem : String.mk (dropCR l) ∈ fileLines content :=
      List.mem_map.mpr ⟨l, hl, rfl⟩
    exact ParseIP_length _ (hvalid _ hmem he)

/-! ## Claims on a whole file -/

/-- C6. When every non-empty line of the file is an address `net.ParseIP`
accepts, `readProxies` returns a map with distinct keys in which the list at
each key `k` is exactly the non-empty lines whose subnet key is `k`, in source
order; the keys are the subnet keys of the non-empty lines, no list is empty,
every non-empty line is in the list of exactly one key, and the stored
addresses are, as a multiset and in number, the non-empty lines. -/
theorem c6_readProxies_groups_lines_in_order (fs : FS) (filename content : String)
    (hopen : fs.openFile filename = Except.ok content)
    (hvalid : ∀ l ∈ fileLines content, l ≠ "" → ParseIP l ≠ none) :
    ∃ m, readProxies fs filename = (some m, none) ∧ WF m ∧
      (∀ k, lookup m k = (fileLines content).filter
        (fun l => decide (l ≠ "") && decide (subnetOf l = some k))) ∧
      (∀ k, k ∈ keys m ↔ ∃ l ∈ fileLines content, l ≠ "" ∧ subnetOf l = some k) ∧
      (∀ k ∈ keys m, lookup m k ≠ []) ∧
      (∀ l ∈ fileLines content, l ≠ "" → ∃! k, k ∈ keys m ∧ l ∈ lookup m k) ∧
      (allProxies m).Perm ((fileLines content).filter (fun l => decide (l ≠ ""))) ∧
      (allProxies m).length = ((fileLines content).filter (fun l => decide (l ≠ ""))).length := by
  obtain ⟨herr, hlines⟩ := scanLines_of_valid content hvalid
  have h := readProxies_of_scanned fs filename content hopen herr (by rw [hlines]; exact hvalid)
  rw [hlines] at h
  exact h

theorem c6_readProxies_groups_lines_in_order_witness :
    ∃ m, readProxies ⟨fun _ => Except.ok "10.0.1.5\n10.0.2.7\n\n10.0.1.9\n", fun _ => none⟩
        "proxies.txt" = (some m, none) ∧ WF m ∧
      (∀ k, lookup m k = (fileLines "10.0.1.5\n10.0.2.7\n\n10.0.1.9\n").filter
        (fun l => decide (l ≠ "") && decide (subnetOf l = some k))) ∧
      (∀ k, k ∈ keys m ↔ ∃ l ∈ fileLines "10.0.1.5\n10.0.2.7\n\n10.0.1.9\n",
        l ≠ "" ∧ subnetOf l = some k) ∧
      (∀ k ∈ keys m, lookup m k ≠ []) ∧
      (∀ l ∈ fileLines "10.0.1.5\n10.0.2.7\n\n10.0.1.9\n", l ≠ "" →
        ∃! k, k ∈ keys m ∧ l ∈ lookup m k) ∧
      (allProxies m).Perm ((fileLines "10.0.1.5\n10.0.2.7\n\n10.0.1.9\n").filter
        (fun l => decide (l ≠ ""))) ∧
      (allProxies m).length =
        ((fileLines "10.0.1.5\n10.0.2.7\n\n10.0.1.9\n").filter
          (fun l => decide (l ≠ ""))).length :=
  c6_readProxies_groups_lines_in_order
    ⟨fun _ => Except.ok "10.0.1.5\n10.0.2.7\n\n10.0.1.9\n", fun _ => none⟩ "proxies.txt"
    "10.0.1.5\n10.0.2.7\n\n10.0.1.9\n" rfl (by decide)

/-- C10. When every line of the file is blank (empty once the scanner has
dropped a trailing carriage return), the empty file included, `readProxies`
returns the empty map and no error. -/
theorem c10_blank_lines_give_empty_map (fs : FS) (filename content : String)
    (hopen : fs.openFile filename = Except.ok content)
    (hblank : ∀ l ∈ fileLines content, l = "") :
    readProxies fs filename = (some [], none) := by
  have hraw : ∀ l ∈ rawLines content.data [], dropCR l = [] := by
    intro l hl
    have hmem : String.mk (dropCR l) ∈ fileLines content := List.mem_map.mpr ⟨l, hl, rfl⟩
    exact congrArg String.data (hblank _ hmem)
  have h := scanTokens_blank (rawLines content.data []) hraw
  have hloop := readProxiesLoop_blank (scanLines content).lines [] h.2
  have herr : (scanLines content).err = none := h.1
  simp [readProxies, hopen, hloop, herr]

theorem c10_blank_lines_give_empty_map_witness :
    readProxies ⟨fun _ => Except.ok "\n\r\n\n", fun _ => none⟩ "proxies.txt" = (some [], none) ∧
      readProxies ⟨fun _ => Except.ok "", fun _ => none⟩ "proxies.txt" = (some [], none) :=
  ⟨c10_blank_lines_give_empty_map ⟨fun _ => Except.ok "\n\r\n\n", fun _ => none⟩ "proxies.txt"
      "\n\r\n\n" rfl (by decide),
    c10_blank_lines_give_empty_map ⟨fun _ => Except.ok "", fun _ => none⟩ "proxies.txt"
      "" rfl (by decide)⟩

/-! ## Format of the subnet key -/

theorem digitChar_eq_zero (d : Nat) (h : d < 10) (h0 : Nat.digitChar d = '0') : d = 0 := by
  have hv := (digitChar_spec d h).2
  rw [h0] at hv
  exact hv.symm

theorem toDigitsCore_head_zero (fuel : Nat) :
    ∀ (n : Nat) (ds : List Char), n < fuel →
      (Nat.toDigitsCore 10 fuel n ds).head? = some '0' → n = 0 := by
  induction fuel with
  | zero =>
    intro n ds h
    omega
  | succ fuel ih =>
    intro n ds h hhead
    rw [Nat.toDigitsCore] at hhead
    split at hhead
    · rename_i h0
      have hd : Nat.digitChar (n % 10) = '0' := by simpa using hhead
      have := digitChar_eq_zero (n % 10) (Nat.mod_lt _ (by decide)) hd
      omega
    · rename_i h0
      have := ih (n / 10) _ (by omega) hhead
      exact absurd this h0

theorem toDigitsCore_ne_nil (fuel : Nat) :
    ∀ (n : Nat) (ds : List Char), Nat.toDigitsCore 10 (fuel + 1) n ds ≠ [] := by
  induction fuel with
  | zero =>
    intro n ds
    rw [Nat.toDigitsCore]
    split
    · simp
    · simp [Nat.toDigitsCore]
  | succ fuel ih =>
    intro n ds
    rw [Nat.toDigitsCore]
    split
    · simp
    · exact ih _ _

theorem fmtD_isDecimalOf (n : Nat) : IsDecimalOf (fmtD n) n := by
  refine ⟨toDigitsCore_ne_nil n n [], fmtD_isDigit n, ?_, ?_⟩
  · have h := readDec_toDigitsCore (n + 1) n [] (Nat.lt_succ_self n)
    simpa [decimalValue] using h
  · intro hhead
    have h0 : n = 0 := toDigitsCore_head_zero (n + 1) n [] (Nat.lt_succ_self n) hhead
    subst h0
    rfl

theorem To4_length (ip ip4 : IP) (h : To4 ip = some ip4) : ip4.length = 4 := by
  unfold To4 at h
  split at h
  · rename_i h4
    have : ip = ip4 := by simpa using h
    rw [← this]
    exact h4
  · split at h
    · rename_i h16
      have : (ip.drop 12).take 4 = ip4 := by simpa using h
      rw [← this, List.length_take, List.length_drop, h16.1]
      rfl
    · simp at h

/-- C13. For every address with a 4-byte form `a.b.c.d`, `getSubnet` returns
exactly the decimal renderings, without leading zeros, of `a`, `b` and `c`
separated by dots, followed by `.0/24`. -/
theorem c13_getSubnet_key_format (ip ip4 : IP) (h : To4 ip = some ip4) :
    ∃ a b c d, ip4 = [a, b, c, d] ∧
      getSubnet ip = fmtD a ++ "." ++ fmtD b ++ "." ++ fmtD c ++ ".0/24" ∧
      getSubnet ip = subnetKey a b c ∧
      IsDecimalOf (fmtD a) a ∧ IsDecimalOf (fmtD b) b ∧ IsDecimalOf (fmtD c) c := by
  have hlen := To4_length ip ip4 h
  match ip4, hlen with
  | [a, b, c, d], _ =>
    refine ⟨a, b, c, d, rfl, ?_, ?_, fmtD_isDecimalOf a, fmtD_isDecimalOf b, fmtD_isDecimalOf c⟩
    · simp [getSubnet, h]
    · simp [getSubnet, h, subnetKey]

theorem c13_getSubnet_key_format_witness :
    (∃ a b c d, [10, 0, 1, 5] = [a, b, c, d] ∧
      getSubnet [0, 0, 0, 0, 0, 0, 0, 0, 0, 0, 255, 255, 10, 0, 1, 5] =
        fmtD a ++ "." ++ fmtD b ++ "." ++ fmtD c ++ ".0/24" ∧
      getSubnet [0, 0, 0, 0, 0, 0, 0, 0, 0, 0, 255, 255, 10, 0, 1, 5] = subnetKey a b c ∧
      IsDecimalOf (fmtD a) a ∧ IsDecimalOf (fmtD b) b ∧ IsDecimalOf (fmtD c) c) ∧
      ParseIP "10.0.1.5" = some [0, 0, 0, 0, 0, 0, 0, 0, 0, 0, 255, 255, 10, 0, 1, 5] ∧
      getSubnet [0, 0, 0, 0, 0, 0, 0, 0, 0, 0, 255, 255, 10, 0, 1, 5] = "10.0.1.0/24" ∧
      getSubnet [10, 0, 1, 5] = "10.0.1.0/24" :=
  ⟨c13_getSubnet_key_format [0, 0, 0, 0, 0, 0, 0, 0, 0, 0, 255, 255, 10, 0, 1, 5] [10, 0, 1, 5]
    (by decide), by decide, by decide, by decide⟩

/-! ## Mode selection and slice bounds -/

/-- C14. For `ipsTotal > 0` the result of `selectRandomProxies` does not depend
on `ipsPerSubnet`; for `ipsTotal ≤ 0`, negative values included, it is the
result of the per-subnet loop, the same as with `ipsTotal = 0`. -/
theorem c14_mode_depends_on_sign_of_ipsTotal (r : Rand) (m : ProxyMap)
    (ipsPerSubnet1 ipsPerSubnet2 ipsTotal1 ipsTotal2 : Int)
    (hpos : 0 < ipsTotal1) (hnonpos : ipsTotal2 ≤ 0) :
    selectRandomProxies r m ipsPerSubnet1 ipsTotal1 =
        selectRandomProxies r m ipsPerSubnet2 ipsTotal1 ∧
      selectRandomProxies r m ipsPerSubnet1 ipsTotal2 = perSubnetLoop ipsPerSubnet1 m r [] ∧
      selectRandomProxies r m ipsPerSubnet1 ipsTotal2 =
        selectRandomProxies r m ipsPerSubnet1 0 := by
  have h2 : ¬ ipsTotal2 > 0 := by omega
  refine ⟨?_, ?_, ?_⟩
  · simp [selectRandomProxies, hpos]
  · simp [selectRandomProxies, h2]
  · simp [selectRandomProxies, h2]

theorem c14_mode_depends_on_sign_of_ipsTotal_witness :
    selectRandomProxies (fun k => k)
        [("10.0.1.0/24", ["10.0.1.5", "10.0.1.9"]), ("10.0.2.0/24", ["10.0.2.7"])] 1 2 =
        selectRandomProxies (fun k => k)
          [("10.0.1.0/24", ["10.0.1.5", "10.0.1.9"]), ("10.0.2.0/24", ["10.0.2.7"])] (-3) 2 ∧
      selectRandomProxies (fun k => k)
        [("10.0.1.0/24", ["10.0.1.5", "10.0.1.9"]), ("10.0.2.0/24", ["10.0.2.7"])] 1 (-7) =
        perSubnetLoop 1
          [("10.0.1.0/24", ["10.0.1.5", "10.0.1.9"]), ("10.0.2.0/24", ["10.0.2.7"])]
          (fun k => k) [] ∧
      selectRandomProxies (fun k => k)
        [("10.0.1.0/24", ["10.0.1.5", "10.0.1.9"]), ("10.0.2.0/24", ["10.0.2.7"])] 1 (-7) =
        selectRandomProxies (fun k => k)
          [("10.0.1.0/24", ["10.0.1.5", "10.0.1.9"]), ("10.0.2.0/24", ["10.0.2.7"])] 1 0 :=
  c14_mode_depends_on_sign_of_ipsTotal (fun k => k)
    [("10.0.1.0/24", ["10.0.1.5", "10.0.1.9"]), ("10.0.2.0/24", ["10.0.2.7"])] 1 (-3) 2 (-7)
    (by decide) (by decide)

theorem perSubnetLoop_isSome (n : Int) (hn : 0 ≤ n) (es : List (String × List String)) :
    ∀ (r : Rand) (sel : ProxyMap), (perSubnetLoop n es r sel).isSome = true := by
  induction es with
  | nil =>
    intro r sel
    rfl
  | cons e rest ih =>
    obtain ⟨k0, v0⟩ := e
    intro r sel
    by_cases h : (v0.length : Int) > n
    · have hl : n ≤ ((Shuffle r v0).1.length : Int) := by
        rw [Shuffle_length]
        omega
      simp only [perSubnetLoop, h, if_true, sliceTo, hn, hl, and_self]
      exact ih _ _
    · simp only [perSubnetLoop, h, if_false]
      exact ih _ _

theorem totalMode_isSome (r : Rand) (m : ProxyMap) (n t : Int) (ht : 0 < t) :
    (selectRandomProxies r m n t).isSome = true := by
  by_cases hlen : ((allProxies m).length : Int) > t
  · have hl : t ≤ ((Shuffle r (allProxies m)).1.length : Int) := by
      rw [Shuffle_length]
      omega
    simp [selectRandomProxies, ht, hlen, sliceTo, hl, le_of_lt ht]
  · simp [selectRandomProxies, ht, hlen]

/-- C16. With `ipsPerSubnet ≥ 0` both slice expressions of
`selectRandomProxies` are within bounds for every map and every `ipsTotal`: the
function returns and does not panic. With `ipsTotal ≤ 0` and a negative
`ipsPerSubnet`, every map with at least one key makes it panic on
`proxies[:ipsPerSubnet]`. -/
theorem c16_slice_bounds (r : Rand) (m : ProxyMap) (ipsPerSubnet ipsTotal : Int) :
    (0 ≤ ipsPerSubnet → (selectRandomProxies r m ipsPerSubnet ipsTotal).isSome = true) ∧
      (ipsPerSubnet < 0 → ipsTotal ≤ 0 → m ≠ [] →
        selectRandomProxies r m ipsPerSubnet ipsTotal = none ∧
        ∀ subnet proxies rest, m = (subnet, proxies) :: rest →
          (proxies.length : Int) > ipsPerSubnet ∧
            sliceTo (Shuffle r proxies).1 ipsPerSubnet = none) := by
  constructor
  · intro hn
    by_cases ht : ipsTotal > 0
    · exact totalMode_isSome r m ipsPerSubnet ipsTotal ht
    · simp only [selectRandomProxies, ht, if_false]
      exact perSubnetLoop_isSome ipsPerSubnet hn m r []
  · intro hneg ht hm
    have ht1 : ¬ ipsTotal > 0 := by omega
    have hslice : ∀ xs : List String, sliceTo xs ipsPerSubnet = none := by
      intro xs
      have : ¬ (0 ≤ ipsPerSubnet ∧ ipsPerSubnet ≤ (xs.length : Int)) := by omega
      simp [sliceTo, this]
    constructor
    · cases m with
      | nil => exact absurd rfl hm
      | cons e rest =>
        obtain ⟨k0, v0⟩ := e
        have hg : (v0.length : Int) > ipsPerSubnet := by omega
        simp [selectRandomProxies, ht1, perSubnetLoop, hg, hslice]
    · intro subnet proxies rest _
      exact ⟨by omega, hslice _⟩

theorem c16_slice_bounds_witness :
    (selectRandomProxies (fun k => k) [("10.0.1.0/24", ["10.0.1.5", "10.0.1.9"])] 0
        (-1)).isSome = true ∧
      (selectRandomProxies (fun k => k) [("10.0.1.0/24", ["10.0.1.5", "10.0.1.9"])] (-1) 0 =
          none ∧
        ∀ subnet proxies rest,
          [("10.0.1.0/24", ["10.0.1.5", "10.0.1.9"])] = (subnet, proxies) :: rest →
            (proxies.length : Int) > -1 ∧ sliceTo (Shuffle (fun k => k) proxies).1 (-1) = none) :=
  ⟨(c16_slice_bounds (fun k => k) [("10.0.1.0/24", ["10.0.1.5", "10.0.1.9"])] 0 (-1)).1
      (by decide),
    (c16_slice_bounds (fun k => k) [("10.0.1.0/24", ["10.0.1.5", "10.0.1.9"])] (-1) 0).2
      (by decide) (by decide) (by decide)⟩

/-! ## The header of a section, for any key -/

theorem exists_last_dot (l : List Char) (h : '.' ∈ l) :
    ∃ xs ys, l = xs ++ '.' :: ys ∧ ∀ c ∈ ys, c ≠ '.' := by
  induction l with
  | nil => simp at h
  | cons c rest ih =>
    by_cases hr : '.' ∈ rest
    · obtain ⟨xs, ys, hxs, hys⟩ := ih hr
      exact ⟨c :: xs, ys, by rw [hxs]; rfl, hys⟩
    · have hc : c = '.' := by
        rcases List.mem_cons.mp h with h1 | h1
        · exact h1.symm
        · exact absurd h1 hr
      refine ⟨[], rest, by rw [hc]; rfl, ?_⟩
      intro x hx hxd
      exact hr (hxd ▸ hx)

theorem headerPrefix_of_no_dot (subnet : String) (h : ∀ c ∈ subnet.data, c ≠ '.') :
    strSliceTo subnet (LastIndex subnet + 1) = some "" := by
  have hl : LastIndex subnet = -1 := by
    unfold LastIndex
    exact lastIndexFrom_no_dot subnet.data 0 (-1) h
  have hb : (0 : Int) ≤ (subnet.data.length : Int) := by omega
  simp only [strSliceTo, hl]
  simp [hb]

theorem headerPrefix_total (subnet : String) :
    ∃ pre, strSliceTo subnet (LastIndex subnet + 1) = some pre ∧
      ('.' ∈ subnet.data → ∃ xs ys, subnet.data = xs ++ '.' :: ys ∧ (∀ c ∈ ys, c ≠ '.') ∧
        pre.data = xs ++ ['.']) ∧
      ('.' ∉ subnet.data → pre = "") := by
  by_cases h : '.' ∈ subnet.data
  · obtain ⟨xs, ys, hxs, hys⟩ := exists_last_dot subnet.data h
    refine ⟨String.mk (xs ++ ['.']), headerPrefix_of_last_dot subnet xs ys hxs hys, ?_, ?_⟩
    · intro _
      exact ⟨xs, ys, hxs, hys, rfl⟩
    · intro hc
      exact absurd h hc
  · refine ⟨"", headerPrefix_of_no_dot subnet ?_, ?_, ?_⟩
    · intro c hc hcd
      exact h (hcd ▸ hc)
    · intro hc
      exact absurd hc h
    · intro _
      rfl

theorem report_isSome (m : ProxyMap) : (report m).isSome = true := by
  induction m with
  | nil => rfl
  | cons e rest ih =>
    obtain ⟨k, v⟩ := e
    obtain ⟨pre, hpre, _, _⟩ := headerPrefix_total k
    obtain ⟨more, hmore⟩ := Option.isSome_iff_exists.mp ih
    simp [report, writeSection, hpre, hmore]

/-- C18. The header prefix `subnet[:LastIndex(subnet, ".")+1]` is within bounds
for every key: for a key with a dot it is the key up to and including its last
dot, for a key without a dot it is the empty text; every section and every
report is written without a panic. For an address with no 4-byte form
`getSubnet` returns the empty key, whose header is ` subnet, <n> IPs:`. -/
theorem c18_header_prefix_in_bounds :
    (∀ subnet : String, ∃ pre, strSliceTo subnet (LastIndex subnet + 1) = some pre ∧
      ('.' ∈ subnet.data → ∃ xs ys, subnet.data = xs ++ '.' :: ys ∧ (∀ c ∈ ys, c ≠ '.') ∧
        pre.data = xs ++ ['.']) ∧
      ('.' ∉ subnet.data → pre = "") ∧
      ∀ proxies, writeSection subnet proxies =
        some (pre ++ " subnet, " ++ fmtD proxies.length ++ " IPs:\n" ++
          String.join (proxies.map (fun proxy => proxy ++ "\n")) ++ "\n")) ∧
      (∀ m : ProxyMap, (report m).isSome = true) ∧
      (∀ ip : IP, To4 ip = none → getSubnet ip = "" ∧
        ∀ proxies, writeSection (getSubnet ip) proxies =
          some (" subnet, " ++ fmtD proxies.length ++ " IPs:\n" ++
            String.join (proxies.map (fun proxy => proxy ++ "\n")) ++ "\n")) ∧
      writeSection "" ["::1"] = some " subnet, 1 IPs:\n::1\n\n" ∧
      writeSection "10.0.1.0/24" ["10.0.1.5"] = some "10.0.1. subnet, 1 IPs:\n10.0.1.5\n\n" := by
  refine ⟨?_, report_isSome, ?_, by decide, by decide⟩
  · intro subnet
    obtain ⟨pre, hpre, h1, h2⟩ := headerPrefix_total subnet
    exact ⟨pre, hpre, h1, h2, fun proxies => by simp [writeSection, hpre]⟩
  · intro ip hip
    have hk : getSubnet ip = "" := by simp [getSubnet, hip]
    refine ⟨hk, ?_⟩
    intro proxies
    have hpre := headerPrefix_of_no_dot "" (by simp)
    rw [hk]
    simp only [writeSection, hpre, String.empty_append]

/-! ## Key sets of the selection -/

theorem zero_header (pre : String) :
    pre ++ " subnet, " ++ fmtD ([] : List String).length ++ " IPs:\n" ++
        String.join (([] : List String).map (fun proxy => proxy ++ "\n")) ++ "\n" =
      pre ++ " subnet, 0 IPs:\n" ++ "\n" := by
  have h : (" subnet, " ++ (fmtD ([] : List String).length ++ (" IPs:\n" ++
      (String.join (([] : List String).map (fun proxy => proxy ++ "\n")) ++ "\n"))) : String) =
        " subnet, 0 IPs:\n" ++ "\n" := by decide
  simp only [String.append_assoc]
  rw [h]

/-- C17. In per-subnet mode (`ipsTotal ≤ 0`, `ipsPerSubnet ≥ 0`) the selection
has exactly the keys of the input; with `ipsPerSubnet = 0` each of them maps to
the empty list and is reported under a `0 IPs` header. In total mode every key
of the selection maps to a non-empty list. -/
theorem c17_key_sets_of_selection (r : Rand) (m : ProxyMap) (ipsPerSubnet ipsTotal : Int)
    (hw : WF m) :
    (ipsTotal ≤ 0 → 0 ≤ ipsPerSubnet →
      ∃ res, selectRandomProxies r m ipsPerSubnet ipsTotal = some res ∧ WF res ∧
        (∀ k, k ∈ keys res ↔ k ∈ keys m) ∧
        (ipsPerSubnet = 0 → ∀ k ∈ keys m, lookup res k = [] ∧
          ∃ pre, writeSection k (lookup res k) = some (pre ++ " subnet, 0 IPs:\n" ++ "\n"))) ∧
      (0 < ipsTotal →
        ∃ res, selectRandomProxies r m ipsPerSubnet ipsTotal = some res ∧ WF res ∧
          ∀ k ∈ keys res, lookup res k ≠ []) := by
  constructor
  · intro ht hn
    have ht1 : ¬ ipsTotal > 0 := by omega
    obtain ⟨res, hres, _, h2, h3, h4⟩ := perSubnetLoop_spec ipsPerSubnet hn m r [] hw
    refine ⟨res, by simpa [selectRandomProxies, ht1] using hres, h3 (by simp [WF, keys]), ?_, ?_⟩
    · intro k
      rw [h2 k]
      simp [keys]
    · intro h0 k hk
      have hlen := (h4 k _ (mem_of_mem_keys m k hk)).1
      rw [h0] at hlen
      have hnil : lookup res k = [] := List.eq_nil_of_length_eq_zero (by simpa using hlen)
      refine ⟨hnil, ?_⟩
      obtain ⟨pre, hpre, _, _⟩ := headerPrefix_total k
      refine ⟨pre, ?_⟩
      rw [hnil]
      simp only [writeSection, hpre]
      rw [zero_header]
  · intro ht
    by_cases hlen : ((allProxies m).length : Int) > ipsTotal
    · have hl : ipsTotal ≤ ((Shuffle r (allProxies m)).1.length : Int) := by
        rw [Shuffle_length]
        omega
      obtain ⟨_, h2, _, h4, _⟩ :=
        groupBySubnet_spec ((Shuffle r (allProxies m)).1.take ipsTotal.toNat) []
      refine ⟨_, by simp [selectRandomProxies, ht, hlen, sliceTo, hl, le_of_lt ht],
        h2 (by simp [WF, keys]), ?_⟩
      intro k hk
      exact h4 (by simp) _ (mem_of_mem_keys _ k hk)
    · refine ⟨[], by simp [selectRandomProxies, ht, hlen], by simp [WF, keys], ?_⟩
      intro k hk
      simp [keys] at hk

theorem c17_key_sets_of_selection_witness :
    (∃ res, selectRandomProxies (fun k => k)
        [("10.0.1.0/24", ["10.0.1.5", "10.0.1.9"]), ("10.0.2.0/24", ["10.0.2.7"])] 0 0 =
          some res ∧ WF res ∧
        (∀ k, k ∈ keys res ↔
          k ∈ keys [("10.0.1.0/24", ["10.0.1.5", "10.0.1.9"]), ("10.0.2.0/24", ["10.0.2.7"])]) ∧
        ((0 : Int) = 0 →
          ∀ k ∈ keys [("10.0.1.0/24", ["10.0.1.5", "10.0.1.9"]), ("10.0.2.0/24", ["10.0.2.7"])],
            lookup res k = [] ∧
            ∃ pre, writeSection k (lookup res k) =
              some (pre ++ " subnet, 0 IPs:\n" ++ "\n"))) ∧
      (∃ res, selectRandomProxies (fun k => k)
        [("10.0.1.0/24", ["10.0.1.5", "10.0.1.9"]), ("10.0.2.0/24", ["10.0.2.7"])] 0 2 =
          some res ∧ WF res ∧ ∀ k ∈ keys res, lookup res k ≠ []) ∧
      selectRandomProxies (fun k => k)
        [("10.0.1.0/24", ["10.0.1.5", "10.0.1.9"]), ("10.0.2.0/24", ["10.0.2.7"])] 0 0 =
          some [("10.0.1.0/24", []), ("10.0.2.0/24", [])] ∧
      report [("10.0.1.0/24", []), ("10.0.2.0/24", [])] =
        some "10.0.1. subnet, 0 IPs:\n\n10.0.2. subnet, 0 IPs:\n\n" :=
  ⟨(c17_key_sets_of_selection (fun k => k)
      [("10.0.1.0/24", ["10.0.1.5", "10.0.1.9"]), ("10.0.2.0/24", ["10.0.2.7"])] 0 0
      (by decide)).1 (by decide) (by decide),
    (c17_key_sets_of_selection (fun k => k)
      [("10.0.1.0/24", ["10.0.1.5", "10.0.1.9"]), ("10.0.2.0/24", ["10.0.2.7"])] 0 2
      (by decide)).2 (by decide), by decide, by decide⟩

/-! ## Runs of `main` -/

theorem readProxies_congr (fs1 fs2 : FS) (filename : String)
    (h : fs1.openFile filename = fs2.openFile filename) :
    readProxies fs1 filename = readProxies fs2 filename := by
  simp only [readProxies, h]

theorem readProxies_after_write (fs : FS) (text : String) :
    readProxies (fs.write "results.txt" text) "proxies.txt" = readProxies fs "proxies.txt" := by
  apply readProxies_congr
  have hne : ¬ ("proxies.txt" = "results.txt") := by decide
  simp [FS.write, hne]

/-- Go's pair returned by `readProxies` holds either a map or an error. -/
theorem readProxies_cases (fs : FS) (filename : String) :
    (∃ err, readProxies fs filename = (none, some err)) ∨
      (∃ m, readProxies fs filename = (some m, none)) := by
  unfold readProxies
  split
  · exact Or.inl ⟨_, rfl⟩
  · split
    · exact Or.inl ⟨_, rfl⟩
    · split
      · exact Or.inl ⟨_, rfl⟩
      · exact Or.inr ⟨_, rfl⟩

theorem mainWith_read_error (n t : Int) (r : Rand) (order1 order2 : ProxyMap → ProxyMap)
    (fs : FS) (err : Error) (hcreate : fs.createErr "results.txt" = none)
    (hread : readProxies fs "proxies.txt" = (none, some err)) :
    mainWith n t r order1 order2 fs =
      ⟨fs.write "results.txt" "", ["Error reading proxies: " ++ err.message ++ "\n"], false⟩ := by
  simp [mainWith, clearResultsFile, hcreate, readProxies_after_write, hread]

theorem mainWith_success (n t : Int) (r : Rand) (order1 order2 : ProxyMap → ProxyMap)
    (fs : FS) (m sel : ProxyMap) (text : String)
    (hcreate : fs.createErr "results.txt" = none)
    (hread : readProxies fs "proxies.txt" = (some m, none))
    (hsel : selectRandomProxies r (order1 m) n t = some sel)
    (hrep : report (order2 sel) = some text) :
    mainWith n t r order1 order2 fs =
      ⟨(fs.write "results.txt" "").write "results.txt" text,
        ["Results written to results.txt\n"], false⟩ := by
  have hc : (fs.write "results.txt" "").createErr "results.txt" = none := hcreate
  simp [mainWith, clearResultsFile, hcreate, readProxies_after_write, hread, hsel,
    writeResults, hc, hrep]

theorem openFile_write_same (fs : FS) (name text : String) :
    (fs.write name text).openFile name = Except.ok text := by
  simp [FS.write]

theorem openFile_write_other (fs : FS) (name text other : String) (h : other ≠ name) :
    (fs.write name text).openFile other = fs.openFile other := by
  simp [FS.write, h]

/-- Outcome of `main` once the output file could be created: what the run
leaves in the output file and prints is decided by `readProxies` on the
input file alone. -/
theorem main_outcome (r : Rand) (order1 order2 : ProxyMap → ProxyMap) (fs : FS)
    (hcreate : fs.createErr "results.txt" = none) :
    (∀ err, (readProxies fs "proxies.txt").2 = some err →
      (main r order1 order2 fs).fs.openFile "results.txt" = Except.ok "" ∧
      (main r order1 order2 fs).stdout = ["Error reading proxies: " ++ err.message ++ "\n"] ∧
      (main r order1 order2 fs).panicked = false) ∧
    ((readProxies fs "proxies.txt").2 = none →
      ∃ sel text,
        selectRandomProxies r (order1 ((readProxies fs "proxies.txt").1.getD []))
          IPsPerSubnet IPsTotal = some sel ∧
        report (order2 sel) = some text ∧
        (main r order1 order2 fs).fs.openFile "results.txt" = Except.ok text ∧
        (main r order1 order2 fs).stdout = ["Results written to results.txt\n"] ∧
        (main r order1 order2 fs).panicked = false) ∧
    (∀ other, other ≠ "results.txt" →
      (main r order1 order2 fs).fs.openFile other = fs.openFile other) := by
  rcases readProxies_cases fs "proxies.txt" with ⟨err0, hread⟩ | ⟨m, hread⟩
  · have hrun : main r order1 order2 fs = _ :=
      mainWith_read_error IPsPerSubnet IPsTotal r order1 order2 fs err0 hcreate hread
    refine ⟨?_, ?_, ?_⟩
    · intro err herr
      have he : err0 = err := by
        rw [hread] at herr
        simpa using herr
      subst he
      rw [hrun]
      exact ⟨openFile_write_same _ _ _, rfl, rfl⟩
    · intro hnone
      rw [hread] at hnone
      simp at hnone
    · intro other hother
      rw [hrun]
      exact openFile_write_other _ _ _ _ hother
  · obtain ⟨sel, hsel⟩ := Option.isSome_iff_exists.mp
      (totalMode_isSome r (order1 m) IPsPerSubnet IPsTotal (by decide))
    obtain ⟨text, hrep⟩ := Option.isSome_iff_exists.mp (report_isSome (order2 sel))
    have hrun : main r order1 order2 fs = _ :=
      mainWith_success IPsPerSubnet IPsTotal r order1 order2 fs m sel text hcreate
        hread hsel hrep
    refine ⟨?_, ?_, ?_⟩
    · intro err herr
      rw [hread] at herr
      simp at herr
    · intro _
      refine ⟨sel, text, ?_, hrep, ?_⟩
      · rw [hread]
        exact hsel
      · rw [hrun]
        exact ⟨openFile_write_same _ _ _, rfl, rfl⟩
    · intro other hother
      rw [hrun]
      exact (openFile_write_other _ _ _ _ hother).trans (openFile_write_other _ _ _ _ hother)

/-- C12. Once `os.Create` succeeds on the output file, `main` has truncated it
before anything else. Whatever the file held before: if loading the input
fails (the file cannot be opened or read, or a line is not an address), the
run ends with the output file existing and empty, nothing more written to it;
otherwise the output file holds exactly the report of this run. In both cases
the outcome is the same for any other prior content of the output file. -/
theorem c12_output_file_truncated_first (r : Rand) (order1 order2 : ProxyMap → ProxyMap)
    (fs : FS) (prior : Except Error String) (hcreate : fs.createErr "results.txt" = none) :
    (∀ err, (readProxies fs "proxies.txt").2 = some err →
      (main r order1 order2 fs).fs.openFile "results.txt" = Except.ok "" ∧
      (main r order1 order2 fs).stdout = ["Error reading proxies: " ++ err.message ++ "\n"] ∧
      (main r order1 order2 fs).panicked = false) ∧
    ((readProxies fs "proxies.txt").2 = none →
      ∃ sel text,
        selectRandomProxies r (order1 ((readProxies fs "proxies.txt").1.getD []))
          IPsPerSubnet IPsTotal = some sel ∧
        report (order2 sel) = some text ∧
        (main r order1 order2 fs).fs.openFile "results.txt" = Except.ok text ∧
        (main r order1 order2 fs).stdout = ["Results written to results.txt\n"] ∧
        (main r order1 order2 fs).panicked = false) ∧
    (main r order1 order2
        { fs with openFile := fun n => if n = "results.txt" then prior else fs.openFile n
          }).fs.openFile "results.txt" =
      (main r order1 order2 fs).fs.openFile "results.txt" ∧
    (main r order1 order2
        { fs with openFile := fun n => if n = "results.txt" then prior else fs.openFile n
          }).stdout = (main r order1 order2 fs).stdout := by
  obtain ⟨h1, h2, _⟩ := main_outcome r order1 order2 fs hcreate
  refine ⟨h1, h2, ?_⟩
  -- the same run from another prior content of the output file
  have hcreate2 : (FS.mk (fun n => if n = "results.txt" then prior else fs.openFile n)
      fs.createErr).createErr "results.txt" = none := hcreate
  obtain ⟨g1, g2, _⟩ := main_outcome r order1 order2
    (FS.mk (fun n => if n = "results.txt" then prior else fs.openFile n) fs.createErr) hcreate2
  have hsame : readProxies
      (FS.mk (fun n => if n = "results.txt" then prior else fs.openFile n) fs.createErr)
        "proxies.txt" = readProxies fs "proxies.txt" := by
    apply readProxies_congr
    have hne : ¬ ("proxies.txt" = "results.txt") := by decide
    simp [hne]
  rw [hsame] at g1 g2
  rcases readProxies_cases fs "proxies.txt" with ⟨err0, hread⟩ | ⟨m, hread⟩
  · have he : (readProxies fs "proxies.txt").2 = some err0 := by rw [hread]
    obtain ⟨a1, a2, _⟩ := h1 err0 he
    obtain ⟨b1, b2, _⟩ := g1 err0 he
    exact ⟨b1.trans a1.symm, b2.trans a2.symm⟩
  · have he : (readProxies fs "proxies.txt").2 = none := by rw [hread]
    obtain ⟨sel, text, a0, a1, a2, a3, _⟩ := h2 he
    obtain ⟨sel2, text2, b0, b1, b2, b3, _⟩ := g2 he
    have hs : sel2 = sel := Option.some.inj (b0.symm.trans a0)
    subst hs
    have ht : text2 = text := Option.some.inj (b1.symm.trans a1)
    subst ht
    exact ⟨b2.trans a2.symm, b3.trans a3.symm⟩

theorem c12_output_file_truncated_first_witness :
    (main (fun k => k) id id
        ⟨fun n => if n = "results.txt" then Except.ok "old report\n" else
          Except.error (Error.io "open proxies.txt: no such file or directory"),
          fun _ => none⟩).fs.openFile "results.txt" = Except.ok "" ∧
      (main (fun k => k) id id
        ⟨fun n => if n = "results.txt" then Except.ok "old report\n" else Except.ok "10.0.1\n",
          fun _ => none⟩).fs.openFile "results.txt" = Except.ok "" ∧
      (main (fun k => k) id id
        ⟨fun n => if n = "results.txt" then Except.ok "old report\n" else Except.ok "10.0.1\n",
          fun _ => none⟩).stdout = ["Error reading proxies: invalid IP address: 10.0.1\n"] ∧
      (main (fun k => k) id id
        ⟨fun n => if n = "results.txt" then Except.ok "old report\n" else
          Except.ok "10.0.1.5\n", fun _ => none⟩).fs.openFile "results.txt" = Except.ok "" :=
  ⟨((c12_output_file_truncated_first (fun k => k) id id
      ⟨fun n => if n = "results.txt" then Except.ok "old report\n" else
        Except.error (Error.io "open proxies.txt: no such file or directory"),
        fun _ => none⟩ (Except.ok "") rfl).1
      (Error.io "open proxies.txt: no such file or directory") (by decide)).1,
    by decide, by decide, by decide⟩

/-! ## Runs on a valid input -/

theorem readProxies_eq_group (fs : FS) (filename content : String)
    (hopen : fs.openFile filename = Except.ok content)
    (hvalid : ∀ l ∈ fileLines content, l ≠ "" → ParseIP l ≠ none) :
    readProxies fs filename =
      (some (groupBySubnet ((fileLines content).filter (fun l => decide (l ≠ ""))) []), none) := by
  obtain ⟨herr, hlines⟩ := scanLines_of_valid content hvalid
  have hloop := readProxiesLoop_ok (scanLines content).lines [] (by rw [hlines]; exact hvalid)
  simp only [readProxies, hopen]
  rw [hloop]
  simp only [herr, hlines]

theorem allProxies_perm (m1 m2 : ProxyMap) (h : m1.Perm m2) :
    (allProxies m1).Perm (allProxies m2) :=
  (h.map Prod.snd).flatten

theorem allProxies_length_eq_sum (m : ProxyMap) :
    (allProxies m).length = (m.map (fun e => e.2.length)).sum := by
  simp [allProxies, List.length_flatten, List.map_map, Function.comp_def]

theorem report_eq_join (m : ProxyMap) : report m = some (String.join (m.map sectionOf)) := by
  induction m with
  | nil => rfl
  | cons e rest ih =>
    obtain ⟨k, v⟩ := e
    obtain ⟨pre, hpre, _, _⟩ := headerPrefix_total k
    simp only [report, writeSection, hpre, ih, List.map_cons, join_cons_string, sectionOf,
      headerPrefix, Option.getD_some]

theorem totalMode_empty (r : Rand) (m : ProxyMap) (n t : Int) (ht : 0 < t)
    (hge : ¬ ((allProxies m).length : Int) > t) :
    selectRandomProxies r m n t = some [] := by
  have ht1 : t > 0 := ht
  simp only [selectRandomProxies, ht1, if_true, hge, if_false]

/-- Total mode on a map of valid addresses holding more than `t` of them: the
selection holds exactly `t` addresses. -/
theorem totalMode_count (r : Rand) (m : ProxyMap) (n t : Int) (ht : 0 < t)
    (hlt : t < ((allProxies m).length : Int))
    (hvalid : ∀ s ∈ allProxies m, ParseIP s ≠ none) :
    ∃ res, selectRandomProxies r m n t = some res ∧ ((allProxies res).length : Int) = t := by
  have hl : t ≤ ((Shuffle r (allProxies m)).1.length : Int) := by
    rw [Shuffle_length]
    omega
  obtain ⟨h1, _, _, _, _⟩ := groupBySubnet_spec ((Shuffle r (allProxies m)).1.take t.toNat) []
  have hsub : ((Shuffle r (allProxies m)).1.take t.toNat).Subperm (allProxies m) :=
    (List.take_sublist _ _).subperm.trans (Shuffle_perm r _).subperm
  have hall : ((Shuffle r (allProxies m)).1.take t.toNat).filter
      (fun s => (ParseIP s).isSome) = (Shuffle r (allProxies m)).1.take t.toNat := by
    rw [List.filter_eq_self]
    intro s hs
    exact Option.isSome_iff_ne_none.mpr (hvalid s (hsub.subset hs))
  rw [hall] at h1
  have hperm : (allProxies (groupBySubnet ((Shuffle r (allProxies m)).1.take t.toNat)
      [])).Perm ((Shuffle r (allProxies m)).1.take t.toNat) := by
    simpa [allProxies] using h1
  refine ⟨groupBySubnet ((Shuffle r (allProxies m)).1.take t.toNat) [],
    by simp [selectRandomProxies, ht, hlt, sliceTo, hl, le_of_lt ht], ?_⟩
  rw [hperm.length_eq, List.length_take, Shuffle_length]
  omega

/-- C15. With the shipped configuration (`IPsPerSubnet = 2`, `IPsTotal = 100`)
`main` selects in total mode, whatever `ipsPerSubnet` is. On a valid input with
at most 100 addresses the selection is empty and the output file is left
empty; on a valid input with more than 100 addresses the report written to the
output file lists exactly 100 addresses over its sections. -/
theorem c15_shipped_configuration (r : Rand) (order1 order2 : ProxyMap → ProxyMap) (fs : FS)
    (content : String) (hcreate : fs.createErr "results.txt" = none)
    (hopen : fs.openFile "proxies.txt" = Except.ok content)
    (hvalid : ∀ l ∈ fileLines content, l ≠ "" → ParseIP l ≠ none)
    (ho1 : ∀ m, (order1 m).Perm m) (ho2 : ∀ m, (order2 m).Perm m) :
    IPsPerSubnet = 2 ∧ IPsTotal = 100 ∧
      ∃ m sel, readProxies fs "proxies.txt" = (some m, none) ∧
        (allProxies (order1 m)).length =
          ((fileLines content).filter (fun l => decide (l ≠ ""))).length ∧
        (∀ n, selectRandomProxies r (order1 m) n IPsTotal = some sel) ∧
        (main r order1 order2 fs).fs.openFile "results.txt" =
          Except.ok (String.join ((order2 sel).map sectionOf)) ∧
        (main r order1 order2 fs).stdout = ["Results written to results.txt\n"] ∧
        (((fileLines content).filter (fun l => decide (l ≠ ""))).length ≤ 100 →
          sel = [] ∧ (main r order1 order2 fs).fs.openFile "results.txt" = Except.ok "") ∧
        (100 < ((fileLines content).filter (fun l => decide (l ≠ ""))).length →
          (allProxies sel).length = 100 ∧ (allProxies (order2 sel)).length = 100 ∧
            ((order2 sel).map (fun e => e.2.length)).sum = 100) := by
  refine ⟨rfl, rfl, ?_⟩
  have hread := readProxies_eq_group fs "proxies.txt" content hopen hvalid
  obtain ⟨hg1, _, _, _, _⟩ :=
    groupBySubnet_spec ((fileLines content).filter (fun l => decide (l ≠ ""))) []
  have hfilter : ((fileLines content).filter (fun l => decide (l ≠ ""))).filter
      (fun s => (ParseIP s).isSome) = (fileLines content).filter (fun l => decide (l ≠ "")) := by
    rw [List.filter_eq_self]
    intro s hs
    have hs1 := List.mem_filter.mp hs
    exact Option.isSome_iff_ne_none.mpr (hvalid s hs1.1 (by simpa using hs1.2))
  rw [hfilter] at hg1
  have hpm : (allProxies (groupBySubnet
      ((fileLines content).filter (fun l => decide (l ≠ ""))) [])).Perm
        ((fileLines content).filter (fun l => decide (l ≠ ""))) := by
    simpa [allProxies] using hg1
  have hp1 := (allProxies_perm _ _ (ho1 (groupBySubnet
    ((fileLines content).filter (fun l => decide (l ≠ ""))) []))).trans hpm
  have hv1 : ∀ s ∈ allProxies (order1 (groupBySubnet
      ((fileLines content).filter (fun l => decide (l ≠ ""))) [])), ParseIP s ≠ none := by
    intro s hs
    have hs1 := List.mem_filter.mp (hp1.subset hs)
    exact hvalid s hs1.1 (by simpa using hs1.2)
  obtain ⟨sel, hsel⟩ := Option.isSome_iff_exists.mp
    (totalMode_isSome r (order1 (groupBySubnet
      ((fileLines content).filter (fun l => decide (l ≠ ""))) [])) IPsPerSubnet IPsTotal
      (by decide))
  have hrep := report_eq_join (order2 sel)
  have hrun : main r order1 order2 fs = _ :=
    mainWith_success IPsPerSubnet IPsTotal r order1 order2 fs _ sel _ hcreate hread hsel hrep
  have hout : (main r order1 order2 fs).fs.openFile "results.txt" =
      Except.ok (String.join ((order2 sel).map sectionOf)) := by
    rw [hrun]
    exact openFile_write_same _ _ _
  refine ⟨_, sel, hread, hp1.length_eq, ?_, hout, by rw [hrun], ?_, ?_⟩
  · intro n
    have h0 : (0 : Int) < IPsTotal := by decide
    rw [← hsel]
    simp [selectRandomProxies, h0]
  · intro hle
    have hlen : ¬ ((allProxies (order1 (groupBySubnet
        ((fileLines content).filter (fun l => decide (l ≠ ""))) []))).length : Int) >
          IPsTotal := by
      rw [hp1.length_eq]
      simp only [IPsTotal]
      omega
    have h0 : (0 : Int) < IPsTotal := by decide
    have hnil : sel = [] := by
      have h2 : selectRandomProxies r (order1 (groupBySubnet
          ((fileLines content).filter (fun l => decide (l ≠ ""))) [])) IPsPerSubnet IPsTotal =
            some [] := totalMode_empty r _ IPsPerSubnet IPsTotal h0 hlen
      rw [hsel] at h2
      exact Option.some.inj h2
    refine ⟨hnil, ?_⟩
    rw [hout, hnil, (ho2 []).eq_nil]
    rfl
  · intro hgt
    have hlt : IPsTotal < ((allProxies (order1 (groupBySubnet
        ((fileLines content).filter (fun l => decide (l ≠ ""))) []))).length : Int) := by
      rw [hp1.length_eq]
      simp only [IPsTotal]
      omega
    obtain ⟨res, hres, hcount⟩ := totalMode_count r _ IPsPerSubnet IPsTotal (by decide) hlt hv1
    have hrs : res = sel := Option.some.inj (hres.symm.trans hsel)
    subst hrs
    have h100 : (allProxies res).length = 100 := by
      simp only [IPsTotal] at hcount
      omega
    have h200 : (allProxies (order2 res)).length = 100 := by
      rw [(allProxies_perm _ _ (ho2 res)).length_eq]
      exact h100
    exact ⟨h100, h200, by rw [← allProxies_length_eq_sum]; exact h200⟩

set_option maxRecDepth 100000 in
theorem c15_shipped_configuration_witness :
    (IPsPerSubnet = 2 ∧ IPsTotal = 100 ∧
      ∃ m sel,
        readProxies ⟨fun _ => Except.ok "10.0.1.5\n10.0.2.7\n", fun _ => none⟩ "proxies.txt" =
          (some m, none) ∧
        (allProxies (id m)).length =
          ((fileLines "10.0.1.5\n10.0.2.7\n").filter (fun l => decide (l ≠ ""))).length ∧
        (∀ n, selectRandomProxies (fun k => k) (id m) n IPsTotal = some sel) ∧
        (main (fun k => k) id id
          ⟨fun _ => Except.ok "10.0.1.5\n10.0.2.7\n", fun _ => none⟩).fs.openFile
            "results.txt" = Except.ok (String.join ((id sel).map sectionOf)) ∧
        (main (fun k => k) id id
          ⟨fun _ => Except.ok "10.0.1.5\n10.0.2.7\n", fun _ => none⟩).stdout =
            ["Results written to results.txt\n"] ∧
        (((fileLines "10.0.1.5\n10.0.2.7\n").filter (fun l => decide (l ≠ ""))).length ≤ 100 →
          sel = [] ∧
          (main (fun k => k) id id
            ⟨fun _ => Except.ok "10.0.1.5\n10.0.2.7\n", fun _ => none⟩).fs.openFile
              "results.txt" = Except.ok "") ∧
        (100 < ((fileLines "10.0.1.5\n10.0.2.7\n").filter (fun l => decide (l ≠ ""))).length →
          (allProxies sel).length = 100 ∧ (allProxies (id sel)).length = 100 ∧
            ((id sel).map (fun e => e.2.length)).sum = 100)) ∧
      ∃ m sel,
        readProxies ⟨fun _ => Except.ok sampleInput101, fun _ => none⟩ "proxies.txt" =
          (some m, none) ∧
        selectRandomProxies (fun k => k) (id m) IPsPerSubnet IPsTotal = some sel ∧
        (main (fun k => k) id id
          ⟨fun _ => Except.ok sampleInput101, fun _ => none⟩).fs.openFile "results.txt" =
            Except.ok (String.join ((id sel).map sectionOf)) ∧
        (allProxies sel).length = 100 ∧ ((id sel).map (fun e => e.2.length)).sum = 100 :=
  ⟨c15_shipped_configuration (fun k => k) id id
    ⟨fun _ => Except.ok "10.0.1.5\n10.0.2.7\n", fun _ => none⟩ "10.0.1.5\n10.0.2.7\n"
    rfl rfl (by decide) (fun _ => List.Perm.refl _) (fun _ => List.Perm.refl _),
    match c15_shipped_configuration (fun k => k) id id
      ⟨fun _ => Except.ok sampleInput101, fun _ => none⟩ sampleInput101
      rfl rfl (by decide) (fun _ => List.Perm.refl _) (fun _ => List.Perm.refl _) with
    | ⟨_, _, m, sel, hread, _, hsel, hout, _, _, hgt⟩ =>
      ⟨m, sel, hread, hsel IPsPerSubnet, hout, (hgt (by decide)).1, (hgt (by decide)).2.2⟩⟩

/-! ## The end-to-end scenario -/

theorem perm_pair {α : Type} (l : List α) (a b : α) (hab : a ≠ b) (h : l.Perm [a, b]) :
    l = [a, b] ∨ l = [b, a] := by
  have hlen : l.length = 2 := h.length_eq
  obtain ⟨x, y, hxy⟩ := List.length_eq_two.mp hlen
  subst hxy
  have ha : a ∈ [x, y] := h.symm.subset (by simp)
  have hb : b ∈ [x, y] := h.symm.subset (by simp)
  have hx : x ∈ [a, b] := h.subset (by simp)
  have hy : y ∈ [a, b] := h.subset (by simp)
  simp only [List.mem_cons, List.mem_singleton, List.not_mem_nil, or_false] at ha hb hx hy
  rcases hx with hx | hx <;> rcases hy with hy | hy
  · subst hx
    subst hy
    rcases hb with hb | hb <;> exact absurd hb.symm hab
  · subst hx
    subst hy
    exact Or.inl rfl
  · subst hx
    subst hy
    exact Or.inr rfl
  · subst hx
    subst hy
    rcases ha with ha | ha <;> exact absurd ha hab

theorem Shuffle_pair (r : Rand) (a b : String) (hab : a ≠ b) :
    (Shuffle r [a, b]).1 = [a, b] ∨ (Shuffle r [a, b]).1 = [b, a] :=
  perm_pair _ a b hab (Shuffle_perm r [a, b])

/-- Per-subnet selection with `ipsPerSubnet = 1` on the map of the scenario, in
either iteration order. -/
theorem scenario_selection (r : Rand) (m1 : ProxyMap)
    (h : m1.Perm [("10.0.1.0/24", ["10.0.1.5", "10.0.1.9"]), ("10.0.2.0/24", ["10.0.2.7"])]) :
    ∃ x, (x = "10.0.1.5" ∨ x = "10.0.1.9") ∧
      (selectRandomProxies r m1 1 0 =
          some [("10.0.1.0/24", [x]), ("10.0.2.0/24", ["10.0.2.7"])] ∨
        selectRandomProxies r m1 1 0 =
          some [("10.0.2.0/24", ["10.0.2.7"]), ("10.0.1.0/24", [x])]) := by
  have h01 : ¬ ((0 : Int) > 0) := by decide
  have h21 : ((["10.0.1.5", "10.0.1.9"] : List String).length : Int) > 1 := by decide
  have h11 : ¬ (((["10.0.2.7"] : List String).length : Int) > 1) := by decide
  have hk : ¬ ("10.0.1.0/24" = "10.0.2.0/24") := by decide
  have hk2 : ¬ ("10.0.2.0/24" = "10.0.1.0/24") := by decide
  have hsl : ∀ u v : String, sliceTo [u, v] 1 = some [u] := by
    intro u v
    simp [sliceTo]
  rcases perm_pair m1 _ _ (by decide) h with hm | hm
  · subst hm
    rcases Shuffle_pair r "10.0.1.5" "10.0.1.9" (by decide) with hs | hs
    · refine ⟨"10.0.1.5", Or.inl rfl, Or.inl ?_⟩
      simp only [selectRandomProxies, h01, if_false, perSubnetLoop, h21, if_true, hs, hsl, h11,
        assign, hk]
    · refine ⟨"10.0.1.9", Or.inr rfl, Or.inl ?_⟩
      simp only [selectRandomProxies, h01, if_false, perSubnetLoop, h21, if_true, hs, hsl, h11,
        assign, hk]
  · subst hm
    rcases Shuffle_pair r "10.0.1.5" "10.0.1.9" (by decide) with hs | hs
    · refine ⟨"10.0.1.5", Or.inl rfl, Or.inr ?_⟩
      simp only [selectRandomProxies, h01, if_false, perSubnetLoop, h21, if_true, hs, hsl, h11,
        assign, hk2]
    · refine ⟨"10.0.1.9", Or.inr rfl, Or.inr ?_⟩
      simp only [selectRandomProxies, h01, if_false, perSubnetLoop, h21, if_true, hs, hsl, h11,
        assign, hk2]

/-- The report of a selection of the scenario, in either iteration order. -/
theorem scenario_report (x : String) (hx : x = "10.0.1.5" ∨ x = "10.0.1.9") (sel1 : ProxyMap)
    (h : sel1.Perm [("10.0.1.0/24", [x]), ("10.0.2.0/24", ["10.0.2.7"])]) :
    report sel1 = some (("10.0.1. subnet, 1 IPs:\n" ++ x ++ "\n" ++ "\n") ++
        "10.0.2. subnet, 1 IPs:\n10.0.2.7\n\n") ∨
      report sel1 = some ("10.0.2. subnet, 1 IPs:\n10.0.2.7\n\n" ++
        ("10.0.1. subnet, 1 IPs:\n" ++ x ++ "\n" ++ "\n")) := by
  have hne : (("10.0.1.0/24", [x]) : String × List String) ≠ ("10.0.2.0/24", ["10.0.2.7"]) := by
    intro hc
    have hk : ("10.0.1.0/24" : String) = "10.0.2.0/24" := congrArg Prod.fst hc
    exact absurd hk (by decide)
  rcases perm_pair sel1 _ _ hne h with hm | hm
  · left
    rw [hm]
    rcases hx with hx | hx <;> subst hx <;> decide
  · right
    rw [hm]
    rcases hx with hx | hx <;> subst hx <;> decide

/-- C11. End to end (clear, load, select with `ipsPerSubnet = 1` and
`ipsTotal = 0`, write) on a file whose non-empty lines are `10.0.1.5`,
`10.0.1.9`, `10.0.2.7`: for every random source and every iteration order of
the two `range` loops, the output file holds exactly two sections, in either
order: one headed `10.0.1. subnet, 1 IPs:` listing one of `10.0.1.5` and
`10.0.1.9`, and one headed `10.0.2. subnet, 1 IPs:` listing `10.0.2.7`. -/
theorem c11_end_to_end_scenario (r : Rand) (order1 order2 : ProxyMap → ProxyMap) (fs : FS)
    (content : String) (hcreate : fs.createErr "results.txt" = none)
    (hopen : fs.openFile "proxies.txt" = Except.ok content)
    (hlines : (fileLines content).filter (fun l => decide (l ≠ "")) =
      ["10.0.1.5", "10.0.1.9", "10.0.2.7"])
    (ho1 : ∀ m, (order1 m).Perm m) (ho2 : ∀ m, (order2 m).Perm m) :
    (mainWith 1 0 r order1 order2 fs).panicked = false ∧
      (mainWith 1 0 r order1 order2 fs).stdout = ["Results written to results.txt\n"] ∧
      ∃ x, (x = "10.0.1.5" ∨ x = "10.0.1.9") ∧
        ((mainWith 1 0 r order1 order2 fs).fs.openFile "results.txt" =
            Except.ok (("10.0.1. subnet, 1 IPs:\n" ++ x ++ "\n" ++ "\n") ++
              "10.0.2. subnet, 1 IPs:\n10.0.2.7\n\n") ∨
          (mainWith 1 0 r order1 order2 fs).fs.openFile "results.txt" =
            Except.ok ("10.0.2. subnet, 1 IPs:\n10.0.2.7\n\n" ++
              ("10.0.1. subnet, 1 IPs:\n" ++ x ++ "\n" ++ "\n"))) := by
  have hvalid : ∀ l ∈ fileLines content, l ≠ "" → ParseIP l ≠ none := by
    intro l hl hne
    have hmem : l ∈ (fileLines content).filter (fun l => decide (l ≠ "")) :=
      List.mem_filter.mpr ⟨hl, by simpa using hne⟩
    rw [hlines] at hmem
    simp only [List.mem_cons, List.mem_singleton, List.not_mem_nil, or_false] at hmem
    rcases hmem with h | h | h <;> subst h <;> decide
  have hread := readProxies_eq_group fs "proxies.txt" content hopen hvalid
  rw [hlines] at hread
  have hmap : groupBySubnet ["10.0.1.5", "10.0.1.9", "10.0.2.7"] [] =
      [("10.0.1.0/24", ["10.0.1.5", "10.0.1.9"]), ("10.0.2.0/24", ["10.0.2.7"])] := by decide
  rw [hmap] at hread
  obtain ⟨x, hx, hsel⟩ := scenario_selection r (order1 _) (ho1
    [("10.0.1.0/24", ["10.0.1.5", "10.0.1.9"]), ("10.0.2.0/24", ["10.0.2.7"])])
  have hfin : ∀ sel : ProxyMap,
      selectRandomProxies r (order1
        [("10.0.1.0/24", ["10.0.1.5", "10.0.1.9"]), ("10.0.2.0/24", ["10.0.2.7"])]) 1 0 =
          some sel →
      sel.Perm [("10.0.1.0/24", [x]), ("10.0.2.0/24", ["10.0.2.7"])] →
      (mainWith 1 0 r order1 order2 fs).panicked = false ∧
      (mainWith 1 0 r order1 order2 fs).stdout = ["Results written to results.txt\n"] ∧
        ((mainWith 1 0 r order1 order2 fs).fs.openFile "results.txt" =
            Except.ok (("10.0.1. subnet, 1 IPs:\n" ++ x ++ "\n" ++ "\n") ++
              "10.0.2. subnet, 1 IPs:\n10.0.2.7\n\n") ∨
          (mainWith 1 0 r order1 order2 fs).fs.openFile "results.txt" =
            Except.ok ("10.0.2. subnet, 1 IPs:\n10.0.2.7\n\n" ++
              ("10.0.1. subnet, 1 IPs:\n" ++ x ++ "\n" ++ "\n"))) := by
    intro sel hs hp
    rcases scenario_report x hx (order2 sel) ((ho2 sel).trans hp) with hrep | hrep
    · have hrun := mainWith_success 1 0 r order1 order2 fs _ sel _ hcreate hread hs hrep
      rw [hrun]
      exact ⟨rfl, rfl, Or.inl (openFile_write_same _ _ _)⟩
    · have hrun := mainWith_success 1 0 r order1 order2 fs _ sel _ hcreate hread hs hrep
      rw [hrun]
      exact ⟨rfl, rfl, Or.inr (openFile_write_same _ _ _)⟩
  rcases hsel with hs | hs
  · obtain ⟨h1, h2, h3⟩ := hfin _ hs (List.Perm.refl _)
    exact ⟨h1, h2, x, hx, h3⟩
  · obtain ⟨h1, h2, h3⟩ := hfin _ hs (List.Perm.swap _ _ _)
    exact ⟨h1, h2, x, hx, h3⟩

theorem c11_end_to_end_scenario_witness :
    ((mainWith 1 0 (fun _ => 0) id id
        ⟨fun n => if n = "proxies.txt" then Except.ok "10.0.1.5\n10.0.1.9\n10.0.2.7\n"
          else Except.error (Error.io "no such file"), fun _ => none⟩).panicked = false ∧
      (mainWith 1 0 (fun _ => 0) id id
        ⟨fun n => if n = "proxies.txt" then Except.ok "10.0.1.5\n10.0.1.9\n10.0.2.7\n"
          else Except.error (Error.io "no such file"), fun _ => none⟩).stdout =
        ["Results written to results.txt\n"] ∧
      ∃ x, (x = "10.0.1.5" ∨ x = "10.0.1.9") ∧
        ((mainWith 1 0 (fun _ => 0) id id
          ⟨fun n => if n = "proxies.txt" then Except.ok "10.0.1.5\n10.0.1.9\n10.0.2.7\n"
            else Except.error (Error.io "no such file"), fun _ => none⟩).fs.openFile
              "results.txt" =
            Except.ok (("10.0.1. subnet, 1 IPs:\n" ++ x ++ "\n" ++ "\n") ++
              "10.0.2. subnet, 1 IPs:\n10.0.2.7\n\n") ∨
          (mainWith 1 0 (fun _ => 0) id id
          ⟨fun n => if n = "proxies.txt" then Except.ok "10.0.1.5\n10.0.1.9\n10.0.2.7\n"
            else Except.error (Error.io "no such file"), fun _ => none⟩).fs.openFile
              "results.txt" =
            Except.ok ("10.0.2. subnet, 1 IPs:\n10.0.2.7\n\n" ++
              ("10.0.1. subnet, 1 IPs:\n" ++ x ++ "\n" ++ "\n")))) ∧
      (mainWith 1 0 (fun _ => 0) id id
        ⟨fun n => if n = "proxies.txt" then Except.ok "10.0.1.5\n10.0.1.9\n10.0.2.7\n"
          else Except.error (Error.io "no such file"), fun _ => none⟩).fs.openFile
            "results.txt" =
        Except.ok "10.0.1. subnet, 1 IPs:\n10.0.1.9\n\n10.0.2. subnet, 1 IPs:\n10.0.2.7\n\n" :=
  ⟨c11_end_to_end_scenario (fun _ => 0) id id
    ⟨fun n => if n = "proxies.txt" then Except.ok "10.0.1.5\n10.0.1.9\n10.0.2.7\n"
      else Except.error (Error.io "no such file"), fun _ => none⟩
    "10.0.1.5\n10.0.1.9\n10.0.2.7\n" rfl rfl (by decide)
    (fun _ => List.Perm.refl _) (fun _ => List.Perm.refl _), by decide⟩

end SelectXips
